import Mathlib

/-!
# Verification of the schematics wirelist extraction core

Shallow embedding of `src/servers/mcp-schematics-wirelist-server/src/extraction.ts`:
the wire/component record model, endpoint classification, the per-wire graph
builder with cross-sheet reference linking, the bounded BFS resolution, the
normalization pipeline (`normalizeWires`, `normalizeComponents`), the vision-call
retry loop (`extractWithVision`) and the page classification (`processPage`).

JavaScript strings are modelled by `String`, JS `Map`/`Set` (insertion ordered)
by association lists / duplicate-free lists, `undefined`-able fields by `Option`.
The JS regexes of the source are implemented as explicit character-list matchers,
each documented with the regex it implements.
-/

namespace Extraction

/-! ## Generic string helpers (JS semantics) -/

/-- JS `\d` character class. -/
def isDigitCh (c : Char) : Bool := '0' ≤ c && c ≤ '9'

/-- JS `String.prototype.trim` on character lists. -/
def jsTrimChars (l : List Char) : List Char :=
  ((l.dropWhile Char.isWhitespace).reverse.dropWhile Char.isWhitespace).reverse

/-- JS `s.trim()` (structural recursion, unlike `String.trim`, so that the
kernel can evaluate concrete runs). -/
def jsTrim (s : String) : String := ⟨jsTrimChars s.data⟩

/-- `s === ''` / falsiness of a string. -/
def strIsEmpty (s : String) : Bool := s.data.isEmpty

/-- JS `s.toLowerCase()` (ASCII, which covers every label the pipeline sees). -/
def toLowerStr (s : String) : String := ⟨s.data.map Char.toLower⟩

/-- JS `s.toUpperCase()` (ASCII). -/
def toUpperStr (s : String) : String := ⟨s.data.map Char.toUpper⟩

/-- JS `s.startsWith(p)`. -/
def startsWithStr (s p : String) : Bool := p.data.isPrefixOf s.data

/-- JS `s.endsWith(p)`. -/
def endsWithStr (s p : String) : Bool := p.data.isSuffixOf s.data

/-- JS `Array.prototype.join(sep)`. -/
def joinSep (sep : String) : List String → String
  | [] => ""
  | [x] => x
  | x :: xs => x ++ sep ++ joinSep sep xs

/-- Numeric value of a digit character (`parseInt` on a digit string folds this). -/
def digitVal (c : Char) : Nat := c.toNat - '0'.toNat

/-- JS `parseInt(s, 10)` on a string of decimal digits. -/
def digitsToNat (l : List Char) : Nat := l.foldl (fun acc c => acc * 10 + digitVal c) 0

/-- Substring test on character lists (JS `String.prototype.includes`). -/
def listContains (l pat : List Char) : Bool :=
  match l with
  | [] => pat.isPrefixOf ([] : List Char)
  | _ :: t => pat.isPrefixOf l || listContains t pat

/-- JS `s.includes(pat)`. -/
def strContains (s pat : String) : Bool := listContains s.data pat.data

/-- Decimal digits of `n`, least significant first, with explicit fuel
(structural recursion so the kernel can evaluate it). -/
def toDigitsRev : Nat → Nat → List Nat
  | 0, _ => []
  | fuel + 1, n => if n < 10 then [n] else n % 10 :: toDigitsRev fuel (n / 10)

/-- Digit character for a digit value (`'0'`..`'9'`). -/
def digitChar10 (d : Nat) : Char := Char.ofNat (48 + d % 10)

/-- JS number-to-string interpolation `${n}` for a natural number. -/
def natToString (n : Nat) : String :=
  ⟨((toDigitsRev (n + 1) n).reverse.map digitChar10)⟩

/-- Evaluation of a little-endian digit list back to a number. -/
def ofDigitsRev (l : List Nat) : Nat := l.foldr (fun d acc => acc * 10 + d) 0

theorem ofDigitsRev_toDigitsRev (fuel n : Nat) (h : n < fuel) :
    ofDigitsRev (toDigitsRev fuel n) = n := by
  induction fuel generalizing n with
  | zero => omega
  | succ f ih =>
    simp only [toDigitsRev]
    by_cases h10 : n < 10
    · simp [h10, ofDigitsRev]
    · have hdiv : n / 10 < f := by
        have := Nat.div_lt_self (by omega : 0 < n) (by omega : 1 < 10)
        omega
      simp only [h10, if_false, ofDigitsRev, List.foldr]
      have := ih (n / 10) hdiv
      simp only [ofDigitsRev] at this
      rw [this]
      omega

theorem toDigitsRev_lt_ten (fuel n : Nat) : ∀ d ∈ toDigitsRev fuel n, d < 10 := by
  induction fuel generalizing n with
  | zero => intro d hd; simp [toDigitsRev] at hd
  | succ f ih =>
    intro d hd
    simp only [toDigitsRev] at hd
    by_cases h10 : n < 10
    · simp [h10] at hd; omega
    · simp only [h10, if_false, List.mem_cons] at hd
      rcases hd with h | h
      · subst h; exact Nat.mod_lt _ (by omega)
      · exact ih _ d h

theorem digitChar10_inj {a b : Nat} (ha : a < 10) (hb : b < 10)
    (h : digitChar10 a = digitChar10 b) : a = b := by
  interval_cases a <;> interval_cases b <;> first | rfl | (exfalso; revert h; decide)

theorem map_digitChar10_inj : ∀ {l1 l2 : List Nat},
    (∀ d ∈ l1, d < 10) → (∀ d ∈ l2, d < 10) →
    l1.map digitChar10 = l2.map digitChar10 → l1 = l2 := by
  intro l1
  induction l1 with
  | nil => intro l2 _ _ h; cases l2 <;> simp_all
  | cons a t ih =>
    intro l2 h1 h2 h
    cases l2 with
    | nil => simp at h
    | cons b t2 =>
      simp only [List.map_cons, List.cons.injEq] at h
      have ha := h1 a (by simp)
      have hb := h2 b (by simp)
      have : a = b := digitChar10_inj ha hb h.1
      subst this
      have := ih (fun d hd => h1 d (by simp [hd])) (fun d hd => h2 d (by simp [hd])) h.2
      simp [this]

theorem natToString_inj {m n : Nat} (h : natToString m = natToString n) : m = n := by
  have hdata : ((toDigitsRev (m + 1) m).reverse.map digitChar10)
      = ((toDigitsRev (n + 1) n).reverse.map digitChar10) := congrArg String.data h
  have hrev := map_digitChar10_inj
    (fun d hd => toDigitsRev_lt_ten (m + 1) m d (List.mem_reverse.mp hd))
    (fun d hd => toDigitsRev_lt_ten (n + 1) n d (List.mem_reverse.mp hd)) hdata
  have hlists : toDigitsRev (m + 1) m = toDigitsRev (n + 1) n :=
    List.reverse_injective hrev
  have hm := ofDigitsRev_toDigitsRev (m + 1) m (Nat.lt_succ_self m)
  have hn := ofDigitsRev_toDigitsRev (n + 1) n (Nat.lt_succ_self n)
  rw [← hm, ← hn, hlists]

/-! ## Source helpers: endpoint classification and sanitization

Each definition mirrors one function of `extraction.ts`; the JS regexes are
implemented as explicit matchers on `List Char`.
-/

/-- `PHASE_ONLY_IDS = new Set(['N', 'PE', 'PEN'])`. -/
def PHASE_ONLY_IDS : List String := ["N", "PE", "PEN"]

/-- Body of the regex `^-?\d+(?:[.,]\d+)?$`: digits, optionally a `.` or `,`
followed by more digits, then end of input. -/
def numericCoreChars (l : List Char) : Bool :=
  let p := l.span isDigitCh
  !p.1.isEmpty &&
    (match p.2 with
     | [] => true
     | c :: rest2 => (c = '.' || c = ',') && !rest2.isEmpty && rest2.all isDigitCh)

/-- `isNumericCoordinate`: a non-string is not numeric; otherwise the trimmed
value must match `^-?\d+(?:[.,]\d+)?$`. -/
def isNumericCoordinate : Option String → Bool
  | none => false
  | some s =>
    match (jsTrim s).data with
    | '-' :: rest => numericCoreChars rest
    | l => numericCoreChars l

/-- JS `[a, b, …].filter(Boolean).join(' | ')` over possibly-undefined strings:
drops `undefined` and empty strings, joins the rest with `" | "`. -/
def joinTruthy (parts : List (Option String)) : String :=
  joinSep " | " ((parts.filterMap id).filter (fun s => !strIsEmpty s))

/-- `markRimandoEndpoint`: a bare numeric endpoint is relabeled
`"rimando <value>"` and the original value is recorded in the note. -/
def markRimandoEndpoint (endpoint : Option String) (note : Option String) :
    Option String × Option String :=
  match endpoint with
  | none => (none, note)
  | some e =>
    if !isNumericCoordinate (some e) then (some e, note)
    else
      let labeled := "rimando " ++ jsTrim e
      let combinedNote := joinTruthy [note, some ("rimando/coord: " ++ jsTrim e)]
      (some labeled, some combinedNote)

/-- Strip a case-insensitive literal from the front of the input; the pattern
is given in lower case. Returns the rest of the input on success. -/
def stripCIPrefix : List Char → List Char → Option (List Char)
  | [], l => some l
  | _ :: _, [] => none
  | p :: ps, c :: cs => if c.toLower = p then stripCIPrefix ps cs else none

/-- Decimal-literal reading of JS `Number(s)` restricted to the forms the
pipeline feeds it (`[+-]? digits* [. digits*]` with at least one digit);
returns (negative sign, integer part, fraction digit characters), or `none`
for `NaN`. -/
def parseDecimalParts (l : List Char) : Option (Bool × Nat × List Char) :=
  let sp : Bool × List Char :=
    match l with
    | '-' :: t => (true, t)
    | '+' :: t => (false, t)
    | _ => (false, l)
  let p := sp.2.span isDigitCh
  match p.2 with
  | [] => if p.1.isEmpty then none else some (sp.1, digitsToNat p.1, [])
  | '.' :: rest2 =>
    let q := rest2.span isDigitCh
    if q.2.isEmpty && (!p.1.isEmpty || !q.1.isEmpty) then
      some (sp.1, digitsToNat p.1, q.1)
    else none
  | _ => none

/-- Replace the first `,` by `.` (JS `s.replace(',', '.')` with a string
pattern replaces only the first occurrence). -/
def replaceFirstComma : List Char → List Char
  | [] => []
  | c :: t => if c = ',' then '.' :: t else c :: replaceFirstComma t

/-- Test of `^\d+\s*x\s*\d+` (the `NxM` cable-format gauge pattern). -/
def gaugeNxMMatch (l : List Char) : Bool :=
  let p := l.span isDigitCh
  !p.1.isEmpty &&
    (let q := p.2.span Char.isWhitespace
     match q.2 with
     | 'x' :: rest =>
       let r := rest.span Char.isWhitespace
       match r.2.span isDigitCh with
       | (ds, _) => !ds.isEmpty
     | _ => false)

/-- `sanitizeGaugeValue`: keep values containing `mm` or of the `NxM` form;
otherwise parse as a number and keep only `0 < n ≤ 70` (larger values are page
references misread as cross-sections). -/
def sanitizeGaugeValue (v : Option String) : Option String :=
  match v with
  | none => none
  | some s =>
    let trimmed := jsTrim s
    if strIsEmpty trimmed then none
    else
      let lower := toLowerStr trimmed
      if strContains lower "mm" then some trimmed
      else if gaugeNxMMatch lower.data then some trimmed
      else
        match parseDecimalParts (replaceFirstComma lower.data) with
        | none => none
        | some (neg, intPart, fracDigits) =>
          let positive := !neg && (intPart > 0 || fracDigits.any (fun c => c ≠ '0'))
          let le70 := intPart < 70 || (intPart = 70 && fracDigits.all (fun c => c = '0'))
          if positive && le70 then some trimmed else none

/-- `sanitizeLengthValue` on an already-typed numeric length is the identity
(the string branch of the source only defends against untyped JSON values,
which the model's `Option Nat` field excludes). -/
def sanitizeLengthValue (v : Option Nat) : Option Nat := v

/-- `shouldDropWireId`: drop `W…` cable identifiers and phase/ground-only
labels (`N`, `PE`, `PEN`); `L1`/`L2`/`L3` are deliberately kept. -/
def shouldDropWireId (id : Option String) : Bool :=
  match id with
  | none => false
  | some s =>
    if strIsEmpty s then false
    else
      let trimmed := jsTrim s
      (match trimmed.data with
       | c :: _ => c = 'W' || c = 'w'
       | [] => false) ||
      PHASE_ONLY_IDS.contains (toUpperStr trimmed)

/-! ## Wire graph data model -/

inductive EndpointType where
  | component
  | reference
  | terminal
deriving Repr, DecidableEq

structure WireNode where
  name : String
  type : EndpointType
  page : Option Nat := none
  foglio : Option Nat := none
deriving Repr, DecidableEq

structure WireEdge where
  from' : String
  to' : String
  page : Option Nat := none
deriving Repr, DecidableEq

structure WireGraphData where
  nodes : List WireNode
  edges : List WireEdge
deriving Repr, DecidableEq

/-- `WireRecord` (the TS interface; `from` is called `from'` because `from` is
a Lean keyword, and the dynamic `_panel` tag used by the orchestrator is an
explicit Boolean field defaulting to false). -/
structure WireRecord where
  id : Option String := none
  from' : Option String := none
  to' : Option String := none
  cable : Option String := none
  gauge : Option String := none
  color : Option String := none
  length_mm : Option Nat := none
  terminal_a : Option String := none
  terminal_b : Option String := none
  note : Option String := none
  page : Option Nat := none
  foglio : Option Nat := none
  panelTag : Bool := false
deriving Repr, DecidableEq

structure ComponentRecord where
  ref : Option String := none
  description : Option String := none
  quantity : Option Nat := none
  manufacturer : Option String := none
  part_number : Option String := none
  location : Option String := none
  note : Option String := none
  wires : Option (List String) := none
  page : Option Nat := none
deriving Repr, DecidableEq

/-- Trailing part of the terminal-block regexes: `\d+[.:]` (digits then a dot
or colon). -/
def checkDigitsSep (l : List Char) : Bool :=
  let p := l.span isDigitCh
  !p.1.isEmpty && (match p.2 with
    | c :: _ => c = '.' || c = ':'
    | [] => false)

/-- Body of `/^-?x\d+[.:]/ || /^-?xt\d+[.:]/` on an already lower-cased,
trimmed endpoint. -/
def terminalMatch (l : List Char) : Bool :=
  let l1 := match l with
    | '-' :: t => t
    | _ => l
  match l1 with
  | 'x' :: rest =>
    checkDigitsSep rest ||
      (match rest with
       | 't' :: rest2 => checkDigitsSep rest2
       | _ => false)
  | _ => false

/-- `classifyEndpoint`: `rimando …` is a page reference, `X…`/`XT…` terminal
blocks are terminals, everything else is a component. -/
def classifyEndpoint (endpoint : String) : EndpointType :=
  let trimmed := toLowerStr (jsTrim endpoint)
  if startsWithStr trimmed "rimando" then .reference
  else if terminalMatch trimmed.data then .terminal
  else .component

/-- Matcher of `^rimando\s+(\d+)\.?\d*$` (case-insensitive): returns the
captured page digits. -/
def rimandoNumMatch (l : List Char) : Option (List Char) :=
  match stripCIPrefix "rimando".data l with
  | none => none
  | some rest =>
    let w := rest.span Char.isWhitespace
    if w.1.isEmpty then none
    else
      let d := w.2.span isDigitCh
      if d.1.isEmpty then none
      else
        match d.2 with
        | [] => some d.1
        | '.' :: rest3 => if rest3.all isDigitCh then some d.1 else none
        | _ => none

/-- `normalizeRimando`: `"rimando 105.1" → "rimando 105"` — reduce a page
reference to its page number, dropping the in-page position. -/
def normalizeRimando (endpoint : String) : String :=
  match rimandoNumMatch endpoint.data with
  | some ds => "rimando " ++ String.mk ds
  | none => endpoint

/-- Test of `^rimando\s+\d+$` (case-insensitive). -/
def rimandoSimpleMatch (l : List Char) : Bool :=
  match stripCIPrefix "rimando".data l with
  | none => false
  | some rest =>
    let w := rest.span Char.isWhitespace
    !w.1.isEmpty &&
      (let d := w.2.span isDigitCh
       !d.1.isEmpty && d.2.isEmpty)

/-- `makeRimandoUnique`: append `@<foglio>` to a page-only reference so that
references emitted from different sheets stay distinct nodes. -/
def makeRimandoUnique (endpoint : String) (foglio : Option Nat) : String :=
  match foglio with
  | some f => if rimandoSimpleMatch endpoint.data then endpoint ++ "@" ++ natToString f else endpoint
  | none => endpoint

/-! ## Insertion-ordered maps and sets (JS `Map` / `Set`) -/

/-- JS `Map.prototype.get`. -/
def mapFind [BEq κ] (m : List (κ × α)) (k : κ) : Option α :=
  (m.find? (fun p => p.1 == k)).map (fun p => p.2)

/-- JS `Map.prototype.has`. -/
def mapHas [BEq κ] (m : List (κ × α)) (k : κ) : Bool :=
  (mapFind m k).isSome

/-- JS `Map.prototype.set`: update in place, or append a new key at the end. -/
def mapSet [BEq κ] : List (κ × α) → κ → α → List (κ × α)
  | [], k, v => [(k, v)]
  | p :: t, k, v => if p.1 == k then (k, v) :: t else p :: mapSet t k v

/-- JS `Set.prototype.add` (insertion ordered). -/
def setAdd (s : List String) (x : String) : List String :=
  if s.contains x then s else s ++ [x]

/-- JS default string comparison (`<` over code units) on character lists. -/
def charListLt : List Char → List Char → Bool
  | [], [] => false
  | [], _ :: _ => true
  | _ :: _, [] => false
  | a :: as, b :: bs =>
    if a.val < b.val then true
    else if b.val < a.val then false
    else charListLt as bs

/-- JS `a < b` on strings, as used by `[a, b].sort()`. -/
def strLtJs (a b : String) : Bool := charListLt a.data b.data

/-! ## `buildWireGraph` -/

/-- One wire record's contribution to the per-identifier graphs: nodes for the
(normalized, uniquified) endpoints and one edge per segment. -/
def pushWireIntoGraphs (graphs : List (String × WireGraphData)) (w : WireRecord) :
    List (String × WireGraphData) :=
  match w.id with
  | none => graphs
  | some rawId =>
    let id := jsTrim rawId
    if strIsEmpty id then graphs
    else
      let graphs := if mapHas graphs id then graphs else mapSet graphs id ⟨[], []⟩
      let g := (mapFind graphs id).getD ⟨[], []⟩
      let g := match w.from' with
        | some f =>
          if strIsEmpty f then g
          else
            let normalized := normalizeRimando (jsTrim f)
            { g with nodes := g.nodes ++
                [⟨makeRimandoUnique normalized w.foglio, classifyEndpoint normalized, w.page, w.foglio⟩] }
        | none => g
      let g := match w.to' with
        | some t =>
          if strIsEmpty t then g
          else
            let normalized := normalizeRimando (jsTrim t)
            { g with nodes := g.nodes ++
                [⟨makeRimandoUnique normalized w.foglio, classifyEndpoint normalized, w.page, w.foglio⟩] }
        | none => g
      let g := match w.from', w.to' with
        | some f, some t =>
          if strIsEmpty f || strIsEmpty t then g
          else
            { g with edges := g.edges ++
                [⟨makeRimandoUnique (normalizeRimando (jsTrim f)) w.foglio,
                  makeRimandoUnique (normalizeRimando (jsTrim t)) w.foglio, w.page⟩] }
        | _, _ => g
      mapSet graphs id g

/-- Matcher of `^rimando\s+(\d+)@(\d+)$` (case-insensitive): target and source
sheet of a uniquified reference node. -/
def rimandoUniqueMatch (l : List Char) : Option (Nat × Nat) :=
  match stripCIPrefix "rimando".data l with
  | none => none
  | some rest =>
    let w := rest.span Char.isWhitespace
    if w.1.isEmpty then none
    else
      let d := w.2.span isDigitCh
      if d.1.isEmpty then none
      else
        match d.2 with
        | '@' :: rest2 =>
          let d2 := rest2.span isDigitCh
          if !d2.1.isEmpty && d2.2.isEmpty then some (digitsToNat d.1, digitsToNat d2.1)
          else none
        | _ => none

/-- Matcher of `^rimando\s+(\d+)$` (case-insensitive): target sheet of a
reference node that never received an `@foglio` suffix. -/
def rimandoFallbackMatch (l : List Char) : Option Nat :=
  match stripCIPrefix "rimando".data l with
  | none => none
  | some rest =>
    let w := rest.span Char.isWhitespace
    if w.1.isEmpty then none
    else
      let d := w.2.span isDigitCh
      if !d.1.isEmpty && d.2.isEmpty then some (digitsToNat d.1) else none

structure RimandoEntry where
  nodeName : String
  sourceFoglio : Option Nat
deriving Repr, DecidableEq

/-- Append an entry to the list stored under `k` (JS get-or-create plus push). -/
def mapPushEntry : List (Nat × List RimandoEntry) → Nat → RimandoEntry →
    List (Nat × List RimandoEntry)
  | [], k, e => [(k, [e])]
  | p :: t, k, e => if p.1 == k then (p.1, p.2 ++ [e]) :: t else p :: mapPushEntry t k e

/-- The `rimandoByTargetFoglio` map: reference nodes grouped by target sheet,
each entry remembering its emitting sheet when known. -/
def collectRimandoEntries (nodes : List WireNode) : List (Nat × List RimandoEntry) :=
  nodes.foldl (fun m node =>
    if node.type == EndpointType.reference then
      match rimandoUniqueMatch node.name.data with
      | some ts => mapPushEntry m ts.1 ⟨node.name, some ts.2⟩
      | none =>
        match rimandoFallbackMatch node.name.data with
        | some target => mapPushEntry m target ⟨node.name, node.foglio⟩
        | none => m
    else m) []

/-- Complementary cross-sheet links: a reference targeting sheet X emitted from
sheet Y is joined to every reference targeting sheet Y emitted from sheet X. -/
def crossLinkEdges (m : List (Nat × List RimandoEntry)) : List WireEdge :=
  m.foldl (fun acc kv =>
    kv.2.foldl (fun acc2 r =>
      match r.sourceFoglio with
      | none => acc2
      | some s =>
        match mapFind m s with
        | none => acc2
        | some revs =>
          revs.foldl (fun acc3 rev =>
            if rev.sourceFoglio == some kv.1 then acc3 ++ [⟨r.nodeName, rev.nodeName, none⟩]
            else acc3) acc2) acc) []

/-- `buildWireGraph`: group records by wire identifier, then add the
cross-sheet reference links to each graph. -/
def buildWireGraph (wires : List WireRecord) : List (String × WireGraphData) :=
  let graphs := wires.foldl pushWireIntoGraphs []
  graphs.map (fun p =>
    (p.1, { p.2 with edges := p.2.edges ++ crossLinkEdges (collectRimandoEntries p.2.nodes) }))

/-! ## Bounded BFS and `resolveWireConnections` -/

/-- Total number of adjacency entries; bounds the number of queue pushes. -/
def adjSize (adj : List (String × List String)) : Nat :=
  adj.foldl (fun acc p => acc + p.2.length) 0

/-- The BFS worklist loop: a real node other than the start is recorded as
reachable but never expanded. -/
def bfsLoop (adj : List (String × List String)) (realNodes : List String)
    (start : String) : Nat → List String → List String → List String → List String
  | 0, _, _, reachable => reachable
  | _ + 1, [], _, reachable => reachable
  | fuel + 1, current :: queue, visited, reachable =>
    if visited.contains current then bfsLoop adj realNodes start fuel queue visited reachable
    else
      let visited := visited ++ [current]
      if realNodes.contains current && current != start then
        bfsLoop adj realNodes start fuel queue visited (reachable ++ [current])
      else
        let neighbors := (mapFind adj current).getD []
        let toPush := neighbors.filter (fun nb => !visited.contains nb)
        bfsLoop adj realNodes start fuel (queue ++ toPush) visited reachable

/-- `bfsReachableRealNodes`: the real nodes directly adjacent to `start`
through reference-only paths. The fuel `adjSize adj + 2` dominates the number
of loop iterations (one initial element plus at most one push per adjacency
entry), so the loop always drains its queue. -/
def bfsReachableRealNodes (adj : List (String × List String)) (start : String)
    (realNodes : List String) : List String :=
  bfsLoop adj realNodes start (adjSize adj + 2) [start] [] []

/-- The unique-real-endpoints loop of `resolveWireConnections`: the set of
real (non-reference) node names together with the first page each appears on. -/
def realNodesAndPages (nodes : List WireNode) : List String × List (String × Nat) :=
  nodes.foldl
    (fun (rp : List String × List (String × Nat)) node =>
      if node.type != EndpointType.reference then
        (setAdd rp.1 node.name,
         match node.page with
         | some p => if mapHas rp.2 node.name then rp.2 else mapSet rp.2 node.name p
         | none => rp.2)
      else rp) (([], []) : List String × List (String × Nat))

/-- `resolveWireConnections`: for each wire identifier, every unordered pair of
real endpoints joined by a reference-only path becomes one resolved record. -/
def resolveWireConnections (graphs : List (String × WireGraphData)) : List WireRecord :=
  graphs.foldl (fun (resolved : List WireRecord) entry =>
    let wireId := entry.1
    let graph := entry.2
    let rp := realNodesAndPages graph.nodes
    let realNodesSet : List String := rp.1
    let nodePageMap : List (String × Nat) := rp.2
    if realNodesSet.length < 2 then resolved
    else
      let adj := graph.edges.foldl (fun a e =>
        let a := if mapHas a e.from' then a else mapSet a e.from' []
        let a := if mapHas a e.to' then a else mapSet a e.to' []
        let a := mapSet a e.from' (setAdd ((mapFind a e.from').getD []) e.to')
        mapSet a e.to' (setAdd ((mapFind a e.to').getD []) e.from'))
        ([] : List (String × List String))
      let st := realNodesSet.foldl
        (fun (st : List String × List WireRecord) start =>
          let reach := bfsReachableRealNodes adj start realNodesSet
          reach.foldl (fun st2 nd =>
            let key := if strLtJs start nd then start ++ "|" ++ nd else nd ++ "|" ++ start
            if st2.1.contains key then st2
            else
              (st2.1 ++ [key],
               st2.2 ++ [{ id := some wireId, from' := some start, to' := some nd,
                           page := match mapFind nodePageMap start with
                                   | some p => some p
                                   | none => mapFind nodePageMap nd }])) st)
        ([], resolved)
      st.2) []

/-! ## The over-escaped regexes of the source

Two regex literals in `extraction.ts` double every backslash (`\\d`, `\\s`,
`\\.`). Inside a JS regex literal `\\` is an escape for one literal backslash
character, so e.g. `\\d+` matches a backslash followed by one or more letters
`d`, not a digit sequence. Both patterns therefore require literal backslashes
in the input and can never match a printed identifier. They are embedded
exactly as written.
-/

/-- Consume one literal backslash character (`\\` inside a JS regex literal). -/
def expectBS : List Char → Option (List Char)
  | c :: t => if c = '\\' then some t else none
  | [] => none

/-- Consume one or more letters `d` (JS `\\d+` after escape reading). -/
def spanDs (l : List Char) : Option (List Char × List Char) :=
  let p := l.span (fun c => c = 'd')
  if p.1.isEmpty then none else some p

/-- The shared shape `\\d+(?:\\.\\d+)?` of both over-escaped patterns, read
with JS escape rules: a backslash, letters `d`, optionally a backslash, any
one character, a backslash and more letters `d`. Returns the consumed
characters (the capture) and the rest; the optional group is tried greedily
then skipped, which is exact on all inputs containing no backslash (the very
first token already fails there). -/
def brokenGroup1 (l : List Char) : Option (List Char × List Char) :=
  match expectBS l with
  | none => none
  | some l1 =>
    match spanDs l1 with
    | none => none
    | some (ds, rest) =>
      match expectBS rest with
      | some r1 =>
        match r1 with
        | a :: r2 =>
          match expectBS r2 with
          | some r3 =>
            match spanDs r3 with
            | some (ds2, rest2) => some ('\\' :: ds ++ '\\' :: a :: '\\' :: ds2, rest2)
            | none => some ('\\' :: ds, rest)
          | none => some ('\\' :: ds, rest)
        | [] => some ('\\' :: ds, rest)
      | none => some ('\\' :: ds, rest)

/-- The composite-identifier pattern of `normalizeWires`,
`/^\\s*(\\d+(?:\\.\\d+)?)\\s*[\\/\\\\]\\s*([A-Za-z0-9_.-]+)\\s*$/`, as the JS
engine reads it: literal backslash, letters `s`, the first capture
(`brokenGroup1`), backslash, letters `s`, one of `\` or `/`, backslash,
letters `s`, the identifier capture, backslash, letters `s`, end. Because of
the over-escaping the input must begin with a backslash, so the intended
`"105.8 / 24"` shapes never match. -/
def brokenCompositeIdMatch (s : String) : Option (String × String) :=
  match expectBS s.data with
  | none => none
  | some l0 =>
    let l1 := l0.dropWhile (fun c => c = 's')
    match brokenGroup1 l1 with
    | none => none
    | some (cap1, r) =>
      match expectBS r with
      | none => none
      | some r1 =>
        let r2 := r1.dropWhile (fun c => c = 's')
        match r2 with
        | c :: r3 =>
          if c = '\\' || c = '/' then
            match expectBS r3 with
            | none => none
            | some r4 =>
              let r5 := r4.dropWhile (fun c => c = 's')
              let p := r5.span (fun c => c.isAlphanum || c = '_' || c = '.' || c = '-')
              if p.1.isEmpty then none
              else
                match expectBS p.2 with
                | none => none
                | some r6 =>
                  if (r6.dropWhile (fun c => c = 's')).isEmpty then
                    some (⟨cap1⟩, ⟨p.1⟩)
                  else none
          else none
        | [] => none

/-- The numeric-looking component-reference pattern of `normalizeComponents`,
`/^-?\\d+(?:\\.\\d+)?$/`, as the JS engine reads it: an optional minus, then
`brokenGroup1`, then end of input — again only matchable by inputs containing
literal backslashes. -/
def brokenNumericRefTest (l : List Char) : Bool :=
  let l1 := match l with
    | '-' :: t => t
    | _ => l
  match brokenGroup1 l1 with
  | some (_, rest) => rest.isEmpty
  | none => false

/-! ## `normalizeWires` -/

/-- `scored`: number of populated fields of a record (used to pick the most
complete duplicate). -/
def scored (w : WireRecord) : Nat :=
  let strScore : Option String → Nat := fun v =>
    match v with
    | some s => if strIsEmpty (jsTrim s) then 0 else 1
    | none => 0
  let numScore : Option Nat → Nat := fun v =>
    match v with
    | some _ => 1
    | none => 0
  strScore w.id + strScore w.from' + strScore w.to' + strScore w.cable +
    strScore w.gauge + strScore w.color + numScore w.length_mm +
    strScore w.terminal_a + strScore w.terminal_b + strScore w.note

/-- The per-record `.map` stage of `normalizeWires`: composite-id split (dead
because of the over-escaped regex), trimming, numeric-endpoint relabeling and
gauge/length sanitization. -/
def sanitizeWire (w : WireRecord) : WireRecord :=
  let w := match w.id with
    | some s =>
      match brokenCompositeIdMatch s with
      | some gi =>
        { w with
          gauge := match w.gauge with
                   | none => some gi.1
                   | some g => if strIsEmpty g then some gi.1 else some g,
          id := some gi.2 }
      | none => w
    | none => w
  let w := { w with id := w.id.map jsTrim, from' := w.from'.map jsTrim,
                    to' := w.to'.map jsTrim, cable := w.cable.map jsTrim,
                    color := w.color.map jsTrim }
  let fm := markRimandoEndpoint w.from' w.note
  let w := { w with from' := fm.1, note := fm.2 }
  let tm := markRimandoEndpoint w.to' w.note
  let w := { w with to' := tm.1, note := tm.2 }
  { w with gauge := sanitizeGaugeValue w.gauge, length_mm := sanitizeLengthValue w.length_mm }

/-- Second filter of `normalizeWires`: readable id and both endpoints present. -/
def wireHasEssentials (w : WireRecord) : Bool :=
  (match w.id with
   | some s => !strIsEmpty (jsTrim s)
   | none => false) &&
  (match w.from' with
   | some s => !strIsEmpty (jsTrim s)
   | none => false) &&
  (match w.to' with
   | some s => !strIsEmpty (jsTrim s)
   | none => false)

/-- Capture of `/^-?(XT\d+)/i`: the terminal-block name in its original case. -/
def xtNameMatch (l : List Char) : Option (List Char) :=
  let l1 := match l with
    | '-' :: t => t
    | _ => l
  match l1 with
  | x :: y :: t2 =>
    if x.toLower = 'x' && y.toLower = 't' then
      let p := t2.span isDigitCh
      if p.1.isEmpty then none else some (x :: y :: p.1)
    else none
  | _ => none

/-- Groups of `/^(-?)(XT\d+)(.*)/i`: sign, terminal-block name, rest. -/
def xtRewriteMatch (l : List Char) : Option (String × String × String) :=
  let sp : String × List Char := match l with
    | '-' :: t => ("-", t)
    | _ => ("", l)
  match sp.2 with
  | x :: y :: t2 =>
    if x.toLower = 'x' && y.toLower = 't' then
      let p := t2.span isDigitCh
      if p.1.isEmpty then none else some (sp.1, ⟨x :: y :: p.1⟩, ⟨p.2⟩)
    else none
  | _ => none

/-- `xtNames`: the set of upper-cased terminal-block names observed in the
endpoints of the filtered records. -/
def collectXtNames (ws : List WireRecord) : List String :=
  ws.foldl (fun s w =>
    [w.from', w.to'].foldl (fun s ep =>
      match xtNameMatch (ep.getD "").data with
      | some cap => setAdd s (toUpperStr ⟨cap⟩)
      | none => s) s) []

/-- `xtCorrections`: a name whose digits are the digits of a longer observed
name minus exactly one leading digit is rewritten to the longer name (the
first such longer name in observation order). -/
def computeXtCorrections (xtNames : List String) : List (String × String) :=
  xtNames.foldl (fun corr name =>
    let shortDigits := name.data.drop 2
    match xtNames.find? (fun longer =>
      longer != name &&
        (let longDigits := longer.data.drop 2
         List.isSuffixOf shortDigits longDigits && longDigits.length == shortDigits.length + 1)) with
    | some longer => corr ++ [(name, longer)]
    | none => corr) []

/-- In-place rewrite of one endpoint under the correction map. -/
def applyXtToEndpoint (corr : List (String × String)) (ep : Option String) : Option String :=
  match xtRewriteMatch (ep.getD "").data with
  | some m =>
    match mapFind corr (toUpperStr m.2.1) with
    | some repl => some (m.1 ++ repl ++ m.2.2)
    | none => ep
  | none => ep

/-- The terminal-block correction warning (one line listing all rewrites). -/
def xtWarningList (corr : List (String × String)) : List String :=
  if corr.isEmpty then []
  else ["Correzione automatica morsettiere: " ++
        joinSep ", " (corr.map (fun kv => kv.1 ++ "→" ++ kv.2))]

/-- Dedup key `id|from|to` over trimmed fields (direction preserved). -/
def dedupKey (w : WireRecord) : String :=
  (match w.id with | some s => jsTrim s | none => "") ++ "|" ++
  (match w.from' with | some s => jsTrim s | none => "") ++ "|" ++
  (match w.to' with | some s => jsTrim s | none => "")

/-- First dedup of `normalizeWires`: keep the best-populated duplicate and
merge notes. -/
def dedupWires (ws : List WireRecord) : List (String × WireRecord) :=
  ws.foldl (fun m wire =>
    let key := dedupKey wire
    match mapFind m key with
    | none => mapSet m key wire
    | some existing =>
      let mergedNote := joinTruthy [existing.note, wire.note]
      let candidate := if scored wire > scored existing then wire else existing
      let candidate :=
        if strIsEmpty mergedNote then candidate else { candidate with note := some mergedNote }
      mapSet m key candidate) []

/-- The `PanelEndpointSet`: non-reference, lower-cased endpoints of records
tagged as belonging to the target panel. -/
def buildPanelEndpoints (ws : List WireRecord) : List String :=
  ws.foldl (fun s w =>
    if !w.panelTag then s
    else
      let fm := toLowerStr (jsTrim (w.from'.getD ""))
      let tm := toLowerStr (jsTrim (w.to'.getD "")
        )
      let s := if !strIsEmpty fm && !startsWithStr fm "rimando" then setAdd s fm else s
      if !strIsEmpty tm && !startsWithStr tm "rimando" then setAdd s tm else s) []

/-- `hasRimando`: one of the endpoints mentions a page reference. -/
def hasRimandoRecord (w : WireRecord) : Bool :=
  strContains (toLowerStr (w.from'.getD "")) "rimando" ||
    strContains (toLowerStr (w.to'.getD "")) "rimando"

/-- JS template interpolation of a possibly-undefined string. -/
def optStr (v : Option String) : String := v.getD "undefined"

/-- `wire.from || '?'`. -/
def optEndpointStr (v : Option String) : String :=
  match v with
  | some s => if strIsEmpty s then "?" else s
  | none => "?"

/-- `${wire.page ?? '?'}`. -/
def optPageStr (v : Option Nat) : String :=
  match v with
  | some p => natToString p
  | none => "?"

/-- The per-record unresolved-reference warning. -/
def unresolvedWarning (w : WireRecord) : String :=
  "Filo \"" ++ jsTrim (w.id.getD "") ++ "\" (da " ++ optEndpointStr w.from' ++
    " a " ++ optEndpointStr w.to' ++ ", pagina " ++ optPageStr w.page ++
    "): rimando non risolto - connessione cross-pagina incompleta"

/-- Final dedup key `id|from|to` on raw fields. -/
def finalKey (w : WireRecord) : String :=
  optStr w.id ++ "|" ++ optStr w.from' ++ "|" ++ optStr w.to'

/-- Final dedup key with the endpoints swapped. -/
def finalReverseKey (w : WireRecord) : String :=
  optStr w.id ++ "|" ++ optStr w.to' ++ "|" ++ optStr w.from'

/-- Final dedup: complete segments take priority; a resolved pair is added
only when neither its key nor its reverse key is present. -/
def finalDedup (complete resolved : List WireRecord) : List (String × WireRecord) :=
  let m := complete.foldl (fun m w => mapSet m (finalKey w) w) []
  resolved.foldl (fun m w =>
    if mapHas m (finalKey w) || mapHas m (finalReverseKey w) then m
    else mapSet m (finalKey w) w) m

/-- Cross-panel membership test of the final filter. -/
def touchesPanel (s : List String) (w : WireRecord) : Bool :=
  s.contains (toLowerStr (jsTrim (w.from'.getD ""))) ||
    s.contains (toLowerStr (jsTrim (w.to'.getD "")))

structure NormalizeResult where
  wires : List WireRecord
  warnings : List String
deriving Repr, DecidableEq

/-- The sanitize-and-exclude front of `normalizeWires`: the per-record `.map`
followed by the three exclusion filters (marked wire ids, missing essentials,
both endpoints numeric). -/
def filteredWiresOf (wires : List WireRecord) : List WireRecord :=
  (((wires.map sanitizeWire).filter (fun w => !shouldDropWireId w.id)).filter
      wireHasEssentials).filter
      (fun w => !(isNumericCoordinate w.from' && isNumericCoordinate w.to'))

/-- The terminal-block correction map computed from the filtered records. -/
def xtCorrOf (wires : List WireRecord) : List (String × String) :=
  computeXtCorrections (collectXtNames (filteredWiresOf wires))

/-- Filtered records after the terminal-block rewrite and the first dedup. -/
def sanitizedWiresOf (wires : List WireRecord) : List WireRecord :=
  let filtered := filteredWiresOf wires
  let xtCorr := xtCorrOf wires
  let corrected := if xtCorr.isEmpty then filtered
    else filtered.map (fun w =>
      { w with from' := applyXtToEndpoint xtCorr w.from',
               to' := applyXtToEndpoint xtCorr w.to' })
  (dedupWires corrected).map (fun p => p.2)

/-- The `PanelEndpointSet` of a run (built from the sanitized records tagged
`_panel`). -/
def panelEndpointSetOf (wires : List WireRecord) : List String :=
  buildPanelEndpoints (sanitizedWiresOf wires)

/-- The wire list of `normalizeWires` before the cross-panel filter: when any
sanitized record carries a reference, the final dedup of the complete segments
with the graph-resolved pairs; otherwise the sanitized records unchanged. -/
def prePanelWiresOf (wires : List WireRecord) : List WireRecord :=
  let sanitizedWires := sanitizedWiresOf wires
  let completeWires := sanitizedWires.filter (fun w => !hasRimandoRecord w)
  let wiresWithRimandi := sanitizedWires.filter hasRimandoRecord
  if !wiresWithRimandi.isEmpty then
    (finalDedup completeWires (resolveWireConnections (buildWireGraph sanitizedWires))).map
      (fun p => p.2)
  else sanitizedWires

/-- The unresolved-reference warnings: one per reference-bearing record whose
wire identifier produced no resolved pair (empty when no record carries a
reference — the source never reaches that code in the reference-free branch). -/
def unresolvedWarningsOf (wires : List WireRecord) : List String :=
  let sanitizedWires := sanitizedWiresOf wires
  let wiresWithRimandi := sanitizedWires.filter hasRimandoRecord
  if !wiresWithRimandi.isEmpty then
    let resolved := resolveWireConnections (buildWireGraph sanitizedWires)
    let resolvedWireIds := resolved.foldl (fun s w =>
      match w.id with
      | some i => setAdd s i
      | none => s) []
    (wiresWithRimandi.filter (fun w =>
      !resolvedWireIds.contains (jsTrim (w.id.getD "")))).map unresolvedWarning
  else []

/-- `normalizeWires` before the cross-panel filter. The cross-panel filter of
the source touches only the wire list of whichever branch ran, so it is
applied to this result by `normalizeWires` below; the warnings are the
terminal-block correction warning followed by the unresolved-reference
warnings (the latter empty in the reference-free branch, matching the
source's bare `warnings1`). -/
def prePanelResultOf (wires : List WireRecord) : NormalizeResult :=
  ⟨prePanelWiresOf wires, xtWarningList (xtCorrOf wires) ++ unresolvedWarningsOf wires⟩

/-- `normalizeWires`: sanitize and filter the raw records, correct misread
terminal blocks, dedup, resolve page references through the wire graph, and
(when a cross-panel pool was used) keep only wires touching the target
panel's endpoint set. -/
def normalizeWires (wires : List WireRecord) (hasCrossPanel : Bool) : NormalizeResult :=
  let pre := prePanelResultOf wires
  if hasCrossPanel then
    ⟨pre.wires.filter (touchesPanel (panelEndpointSetOf wires)), pre.warnings⟩
  else pre

/-! ## `normalizeComponents` -/

/-- Groups of `/^(-?[A-Za-z0-9]+)([:\/])(.*)$/`: base reference, separator,
pin suffix (this regex is escaped correctly in the source). -/
def refSplitMatch (l : List Char) : Option (List Char × Char × List Char) :=
  let sp : List Char × List Char := match l with
    | '-' :: t => (['-'], t)
    | _ => ([], l)
  let p := sp.2.span Char.isAlphanum
  if p.1.isEmpty then none
  else
    match p.2 with
    | c :: rest => if c = ':' || c = '/' then some (sp.1 ++ p.1, c, rest) else none
    | [] => none

/-- One decimal string per wire reference, deduplicated preserving order. -/
def dedupStrings (l : List String) : List String := l.foldl setAdd []

/-- `normalizeComponents`: drop numeric-only refs without description (dead
because of the over-escaped regex), split embedded pin suffixes into the note,
then merge records sharing a base reference. Returns no warnings. -/
def normalizeComponents (components : List ComponentRecord) : List ComponentRecord :=
  let normalized := (components.filter (fun c =>
      let ref := match c.ref with
        | some s => jsTrim s
        | none => ""
      let desc := match c.description with
        | some s => jsTrim s
        | none => ""
      let gaugeLike := !strIsEmpty ref && brokenNumericRefTest ref.data
      !(gaugeLike && strIsEmpty desc))).map (fun c =>
      match c.ref with
      | some r =>
        match refSplitMatch r.data with
        | some m =>
          let suffixTrimmed : String := ⟨jsTrimChars m.2.2⟩
          { c with note := some (joinTruthy [c.note, some ("terminale/suffisso: " ++ suffixTrimmed)]),
                   ref := some ⟨m.1⟩ }
        | none => c
      | none => c)
  let m := normalized.foldl (fun m comp =>
    let ref := match comp.ref with
      | some s => jsTrim s
      | none => ""
    if strIsEmpty ref then m
    else
      match mapFind m ref with
      | none => mapSet m ref comp
      | some existing =>
        let existingDesc := match existing.description with
          | some s => jsTrim s
          | none => ""
        let newDesc := match comp.description with
          | some s => jsTrim s
          | none => ""
        let merged := existing
        let merged := if strIsEmpty existingDesc && !strIsEmpty newDesc then
            { merged with description := some newDesc } else merged
        let merged := match existing.quantity, comp.quantity with
          | some eq', some nq => { merged with quantity := some (eq' + nq) }
          | none, some nq => { merged with quantity := some nq }
          | _, _ => merged
        let mergedWires := dedupStrings
          ((((existing.wires.getD []) ++ (comp.wires.getD [])).map jsTrim).filter
            (fun s => !strIsEmpty s))
        let merged := if !mergedWires.isEmpty then { merged with wires := some mergedWires } else merged
        let existingNote := match existing.note with
          | some s => jsTrim s
          | none => ""
        let newNote := match comp.note with
          | some s => jsTrim s
          | none => ""
        let mergedNote := joinTruthy [some existingNote, some newNote]
        let merged := if !strIsEmpty mergedNote then { merged with note := some mergedNote } else merged
        let merged := match existing.page, comp.page with
          | none, some np => { merged with page := some np }
          | _, _ => merged
        mapSet m ref merged) ([] : List (String × ComponentRecord))
  m.map (fun p => p.2)

/-! ## `extractWithVision` and `processPage`

The recognition service is modelled as a stub mapping the attempt number
(1-based) to an outcome: an HTTP rate-limit status or a parsed result. The
`extractWithVision` retry loop walks attempts `1..VISION_MAX_RETRIES`; on a
rate-limit response at the last attempt the thrown error is caught by the
surrounding `catch`, is not classified as retriable, and is converted into a
returned failure result carrying one warning — the function never throws.
The network-error branch of the `catch` is covered by the same `rateLimited`
shape (same control flow: retry below the budget, warning result at it). -/

structure QwenExtractionResult where
  ubicazione : String := ""
  foglio : Option Nat := none
  has_schema : Bool := false
  wires : List WireRecord := []
  components : List ComponentRecord := []
  warnings : List String := []
deriving Repr, DecidableEq

inductive VisionOutcome where
  | rateLimited (status : Nat)
  | ok (parsed : QwenExtractionResult)
deriving Repr, DecidableEq

/-- The failure result returned when the rate-limit budget is exhausted:
`catch` receives `OpenRouter rate limited (<status>) after <max> retries`,
finds it non-retriable, and returns it as a per-result warning. -/
def visionFailureResult (modelName : String) (pageNumber : Nat) (maxRetries status : Nat) :
    QwenExtractionResult :=
  { ubicazione := "", has_schema := false, wires := [], components := [],
    warnings := ["Pagina " ++ natToString pageNumber ++ ": errore " ++ modelName ++
                 " - OpenRouter rate limited (" ++ natToString status ++ ") after " ++
                 natToString maxRetries ++ " retries"] }

/-- The attempt loop of `extractWithVision` (`for attempt = 1; attempt <=
VISION_MAX_RETRIES; attempt++`), with the remaining attempt count as fuel. On
success the parsed wires get the page number and sheet stamped on. -/
def visionAttempts (modelName : String) (pageNumber : Nat) (maxRetries : Nat)
    (responses : Nat → VisionOutcome) : Nat → Nat → QwenExtractionResult
  | _, 0 =>
    { ubicazione := "", has_schema := false, wires := [], components := [],
      warnings := ["Pagina " ++ natToString pageNumber ++ ": max retries exceeded"] }
  | attempt, fuel + 1 =>
    match responses attempt with
    | .rateLimited status =>
      if attempt < maxRetries then
        visionAttempts modelName pageNumber maxRetries responses (attempt + 1) fuel
      else visionFailureResult modelName pageNumber maxRetries status
    | .ok parsed =>
      { ubicazione := parsed.ubicazione,
        foglio := parsed.foglio,
        has_schema := parsed.has_schema,
        wires := parsed.wires.map (fun w => { w with page := some pageNumber, foglio := parsed.foglio }),
        components := parsed.components.map (fun c => { c with page := some pageNumber }),
        warnings := parsed.warnings }

/-- `extractWithVision` for one page against a stubbed recognition service. -/
def extractWithVision (modelName : String) (pageNumber : Nat) (maxRetries : Nat)
    (responses : Nat → VisionOutcome) : QwenExtractionResult :=
  visionAttempts modelName pageNumber maxRetries responses 1 maxRetries

/-- `pageMatchesPanelId`'s label normalization:
`s.replace(/[\s+\-]/g, '').toUpperCase()`. -/
def normalizePanelLabel (s : String) : String :=
  toUpperStr ⟨s.data.filter (fun c => !(c.isWhitespace || c = '+' || c = '-'))⟩

/-- `pageMatchesPanelId`: flexible match after stripping `+`/`-`/whitespace. -/
def pageMatchesPanelId (ubicazione panelId : String) : Bool :=
  if strIsEmpty ubicazione || strIsEmpty panelId then false
  else normalizePanelLabel ubicazione == normalizePanelLabel panelId

/-- The accumulation state shared by the page workers (wires and components of
the target panel, the cross-panel pool, warnings, skipped-page count). -/
structure RunState where
  wires : List WireRecord := []
  components : List ComponentRecord := []
  crossPanelWires : List WireRecord := []
  warnings : List String := []
  skippedPages : Nat := 0
deriving Repr, DecidableEq

/-- `processPage` applied to the result of one vision call: non-schema pages
are skipped (before the per-result warnings are ever read), non-matching
panels contribute only their reference-bearing wires to the cross-panel pool,
and a page without a readable sheet number still contributes but warns. -/
def processPage (panelId : Option String) (pageNum : Nat) (qr : QwenExtractionResult)
    (st : RunState) : RunState :=
  if !qr.has_schema then { st with skippedPages := st.skippedPages + 1 }
  else
    let matchesPanel := match panelId with
      | none => true
      | some pid =>
        if strIsEmpty pid then true else pageMatchesPanelId qr.ubicazione pid
    if !matchesPanel then
      let relevantWires := qr.wires.filter (fun w =>
        strContains (toLowerStr (w.from'.getD "")) "rimando" ||
          strContains (toLowerStr (w.to'.getD "")) "rimando")
      { st with crossPanelWires := st.crossPanelWires ++ relevantWires,
                skippedPages := st.skippedPages + 1 }
    else
      let st := match qr.foglio with
        | none => { st with warnings := st.warnings ++
            ["Pagina PDF " ++ natToString pageNum ++
             ": impossibile leggere il numero foglio dal cartiglio. I rimandi da/verso questa pagina non saranno risolti."] }
        | some _ => st
      { st with wires := st.wires ++ qr.wires,
                components := st.components ++ qr.components,
                warnings := st.warnings ++ qr.warnings }

/-- The extraction run over a list of pages (page number plus stubbed service
responses). The source dispatches pages through a bounded-concurrency pool
into one shared append-only accumulation; a fold models the accumulation, and
each page's contribution depends only on its own responses. -/
def runPages (modelName : String) (panelId : Option String) (maxRetries : Nat)
    (pages : List (Nat × (Nat → VisionOutcome))) : RunState :=
  pages.foldl (fun st p =>
    processPage panelId p.1 (extractWithVision modelName p.1 maxRetries p.2) st) {}

/-! ## Concrete fixtures used by the claim theorems -/

/-- The synthetic wire graph of the no-phantom-chain property: real nodes `A`,
`B`, `C`; reference nodes `ref1`, `ref2`; edges A–ref1, ref1–ref2 (the
cross-sheet link), ref2–B, ref2–C. -/
def phantomChainGraph : WireGraphData :=
  { nodes := [⟨"A", .component, none, none⟩, ⟨"ref1", .reference, none, none⟩,
              ⟨"ref2", .reference, none, none⟩, ⟨"B", .component, none, none⟩,
              ⟨"C", .component, none, none⟩],
    edges := [⟨"A", "ref1", none⟩, ⟨"ref1", "ref2", none⟩,
              ⟨"ref2", "B", none⟩, ⟨"ref2", "C", none⟩] }

/-- A chain of three real nodes A–B–C (the configuration the source's own
comment describes: only A↔B and B↔C must be resolved, never A↔C). -/
def chainRealGraph : WireGraphData :=
  { nodes := [⟨"A", .component, none, none⟩, ⟨"B", .component, none, none⟩,
              ⟨"C", .component, none, none⟩],
    edges := [⟨"A", "B", none⟩, ⟨"B", "C", none⟩] }

/-- Page 1 of the end-to-end example: sheet 100, wire 24 from QM102.1 into a
reference to sheet 108. -/
def c2page1Wire : WireRecord :=
  { id := some "24", from' := some "QM102.1", to' := some "rimando 108",
    page := some 1, foglio := some 100 }

/-- Page 2 of the end-to-end example: sheet 108, wire 24 from a reference to
sheet 100 into KM45.2. -/
def c2page2Wire : WireRecord :=
  { id := some "24", from' := some "rimando 100", to' := some "KM45.2",
    page := some 2, foglio := some 108 }

/-- The single resolved record expected from the end-to-end example. -/
def c2resolvedWire : WireRecord :=
  { id := some "24", from' := some "QM102.1", to' := some "KM45.2", page := some 1 }

/-- Records observing terminal blocks XT1, XT11 and XT111 together — the
correction map then contains both XT1→XT11 and XT11→XT111. -/
def xtCascadeWire1 : WireRecord := { id := some "1", from' := some "XT1.5", to' := some "A1" }

def xtCascadeWire2 : WireRecord := { id := some "2", from' := some "XT11.2", to' := some "B1" }

def xtCascadeWire3 : WireRecord := { id := some "3", from' := some "XT111.7", to' := some "C1" }

/-- A wire segment from a page whose sheet number could not be read. -/
def fogliolessWire1 : WireRecord :=
  { id := some "24", from' := some "QM1.1", to' := some "rimando 108",
    page := some 5, foglio := none }

/-- A second sheet-less segment of the same wire referencing the same page. -/
def fogliolessWire2 : WireRecord :=
  { id := some "24", from' := some "rimando 108", to' := some "KM2.2",
    page := some 7, foglio := none }

/-- A successful page recognition for panel `+A1`, sheet 100. -/
def visionOkResult : QwenExtractionResult :=
  { ubicazione := "+A1", foglio := some 100, has_schema := true,
    wires := [{ id := some "24", from' := some "QM102.1", to' := some "KM45.2" }] }

/-- Service stub: rate-limited on the first three attempts, successful after. -/
def rlThreeThenOk : Nat → VisionOutcome := fun attempt =>
  if attempt ≤ 3 then .rateLimited 429 else .ok visionOkResult

/-- Service stub: immediately successful. -/
def alwaysOk : Nat → VisionOutcome := fun _ => .ok visionOkResult

/-! ## Claim theorems -/

/-- C1 counterexample. The claim says that on the synthetic graph A–ref1,
ref1–ref2, ref2–B, ref2–C the resolver yields exactly {A↔B, A↔C} and not
{B↔C} (B and C have no direct reference edge between them). In fact the
resolver also yields B↔C: the BFS from B passes through the reference node
ref2 — which never stops expansion — and reaches C. The graph has no direct
B–C edge, so the claim's escape clause does not apply. -/
theorem C1_counterexample :
    resolveWireConnections [("24", phantomChainGraph)] =
      [{ id := some "24", from' := some "A", to' := some "B" },
       { id := some "24", from' := some "A", to' := some "C" },
       { id := some "24", from' := some "B", to' := some "C" }] ∧
    ({ id := some "24", from' := some "B", to' := some "C" } : WireRecord) ∈
      resolveWireConnections [("24", phantomChainGraph)] ∧
    phantomChainGraph.edges.all (fun e =>
      !((e.from' == "B" && e.to' == "C") || (e.from' == "C" && e.to' == "B"))) = true := by
  refine ⟨by decide, by decide, by decide⟩

/-- C1 amended: on the synthetic graph the resolver yields exactly
{A↔B, A↔C, B↔C} — B↔C is also yielded because B and C are joined through
reference ref2 by a reference-only path. A pair is withheld only when every
path between its endpoints passes through another real node: on the all-real
chain A–B–C the resolver yields exactly {A↔B, B↔C} and no A↔C. -/
theorem C1_amended_resolution :
    resolveWireConnections [("24", phantomChainGraph)] =
      [{ id := some "24", from' := some "A", to' := some "B" },
       { id := some "24", from' := some "A", to' := some "C" },
       { id := some "24", from' := some "B", to' := some "C" }] ∧
    resolveWireConnections [("1", chainRealGraph)] =
      [{ id := some "1", from' := some "A", to' := some "B" },
       { id := some "1", from' := some "B", to' := some "C" }] ∧
    ({ id := some "1", from' := some "A", to' := some "C" } : WireRecord) ∉
      resolveWireConnections [("1", chainRealGraph)] ∧
    ({ id := some "1", from' := some "C", to' := some "A" } : WireRecord) ∉
      resolveWireConnections [("1", chainRealGraph)] := by
  refine ⟨by decide, by decide, by decide, by decide⟩

/-- C2: for the two-page input (sheet 100, panel +A1: wire 24 from QM102.1 to
a reference to sheet 108; sheet 108, panel +A1: wire 24 from a reference to
sheet 100 to KM45.2), building and resolving the wire graph produces exactly
one resolved record 24: QM102.1 ↔ KM45.2 — the two complementary references
are cross-linked and eliminated. The same holds through the full
`normalizeWires` pipeline, with no warnings. -/
theorem C2_end_to_end :
    resolveWireConnections (buildWireGraph [c2page1Wire, c2page2Wire]) = [c2resolvedWire] ∧
    normalizeWires [c2page1Wire, c2page2Wire] false = ⟨[c2resolvedWire], []⟩ := by
  refine ⟨by decide, by decide⟩

/-- C4 (code bug): with the source's default budget `VISION_MAX_RETRIES = 3`,
three consecutive rate-limit responses already exhaust the loop (the setting
counts total attempts, so the fourth, successful response is never requested)
and the call returns a failure result; `processPage` then skips the page via
its `has_schema` check BEFORE reading the per-result warnings, so the run
records NO warning for the page — against both the claim and the warning
text `extractWithVision` itself constructs. The rest of the run is unaffected
(page 2 contributes normally), and with a four-attempt budget the same
response sequence yields the success with zero warnings. -/
theorem C4_retry_budget_and_lost_warning :
    extractWithVision "gemini" 1 3 rlThreeThenOk = visionFailureResult "gemini" 1 3 429 ∧
    (visionFailureResult "gemini" 1 3 429).warnings =
      ["Pagina 1: errore gemini - OpenRouter rate limited (429) after 3 retries"] ∧
    runPages "gemini" (some "+A1") 3 [(1, rlThreeThenOk), (2, alwaysOk)] =
      { wires := [{ id := some "24", from' := some "QM102.1", to' := some "KM45.2",
                    page := some 2, foglio := some 100 }],
        components := [], crossPanelWires := [], warnings := [], skippedPages := 1 } ∧
    (extractWithVision "gemini" 1 4 rlThreeThenOk).has_schema = true ∧
    (extractWithVision "gemini" 1 4 rlThreeThenOk).warnings = [] ∧
    runPages "gemini" (some "+A1") 4 [(1, rlThreeThenOk), (2, alwaysOk)] =
      { wires := [{ id := some "24", from' := some "QM102.1", to' := some "KM45.2",
                    page := some 1, foglio := some 100 },
                  { id := some "24", from' := some "QM102.1", to' := some "KM45.2",
                    page := some 2, foglio := some 100 }],
        components := [], crossPanelWires := [], warnings := [], skippedPages := 0 } := by
  refine ⟨by decide, by decide, by decide, by decide, by decide, by decide⟩

/-- C5 counterexample. The claim says every dropped or corrected row is paired
with a warning. In fact the exclusion filters drop rows silently: a wire with
a cable-prefix id (`W1`) and a wire missing its `to` endpoint are both removed
with an empty warning list, and a numeric-only component reference is not even
dropped (its detection regex is over-escaped) — `normalizeComponents` returns
no warnings at all. -/
theorem C5_counterexample :
    normalizeWires [{ id := some "W1", from' := some "A", to' := some "B" }] false = ⟨[], []⟩ ∧
    normalizeWires [{ id := some "24", from' := some "QM1.1" }] false = ⟨[], []⟩ ∧
    normalizeComponents [{ ref := some "12.5" }] = [{ ref := some "12.5" }] := by
  refine ⟨by decide, by decide, by decide⟩

/-- C7 (code bug): the composite-identifier split never happens. The source's
comment documents the intent (`"105.8 / 24"` → gauge `105.8`, id `24`), but
the regex is over-escaped (`\\d` matches a literal backslash plus letters
`d`), so it can only match strings beginning with a backslash: the record
passes through `normalizeWires` with its id unchanged and no gauge set. -/
theorem C7_composite_id_regex_dead :
    brokenCompositeIdMatch "105.8 / 24" = none ∧
    normalizeWires [{ id := some "105.8 / 24", from' := some "QM1.1", to' := some "KM2.2" }] false =
      ⟨[{ id := some "105.8 / 24", from' := some "QM1.1", to' := some "KM2.2" }], []⟩ ∧
    (∀ s : String, s.data.head? ≠ some '\\' → brokenCompositeIdMatch s = none) := by
  refine ⟨by decide, by decide, ?_⟩
  intro s h
  unfold brokenCompositeIdMatch
  cases hd : s.data with
  | nil => rfl
  | cons c t =>
    have hc : c ≠ '\\' := by
      intro hcc
      exact h (by rw [hd, hcc]; rfl)
    simp only [expectBS, if_neg hc]

/-- C7 witness: the general no-leading-backslash conjunct applied to a
concrete composite-looking identifier. -/
theorem C7_composite_witness : brokenCompositeIdMatch "108.8/L1" = none :=
  C7_composite_id_regex_dead.2.2 "108.8/L1" (by decide)

/-- C8 (code bug): a page with an unreadable sheet number is indeed still
processed and warned about (first conjunct), but its page references CAN
still produce resolved cross-page connections, against the claim and the
code's own warning text: two sheet-less segments of wire 24 that both say
`rimando 108` collapse into a single reference node (no `@foglio` suffix is
appended), so QM1.1 (page 5) and KM2.2 (page 7) are resolved as connected. -/
theorem C8_unreadable_foglio :
    processPage (some "+A1") 5
        { ubicazione := "+A1", foglio := none, has_schema := true, wires := [fogliolessWire1] } {} =
      { wires := [fogliolessWire1], components := [], crossPanelWires := [],
        warnings := ["Pagina PDF 5: impossibile leggere il numero foglio dal cartiglio. I rimandi da/verso questa pagina non saranno risolti."],
        skippedPages := 0 } ∧
    resolveWireConnections (buildWireGraph [fogliolessWire1, fogliolessWire2]) =
      [{ id := some "24", from' := some "QM1.1", to' := some "KM2.2", page := some 5 }] ∧
    (normalizeWires [fogliolessWire1, fogliolessWire2] false).wires =
      [{ id := some "24", from' := some "QM1.1", to' := some "KM2.2", page := some 5 }] := by
  refine ⟨by decide, by decide, by decide⟩

/-- C10 counterexample. Normalization is not idempotent: on records observing
XT1, XT11 and XT111 the first pass computes the corrections XT1→XT11 and
XT11→XT111 simultaneously (each endpoint is rewritten once through the map),
so the first pass turns XT1.5 into XT11.5 — and the second pass, seeing
{XT11, XT111}, rewrites it again to XT111.5. -/
theorem C10_counterexample :
    (normalizeWires (normalizeWires [xtCascadeWire1, xtCascadeWire2, xtCascadeWire3] false).wires
        false).wires ≠
      (normalizeWires [xtCascadeWire1, xtCascadeWire2, xtCascadeWire3] false).wires := by
  decide

/-- C10 amended: reapplying normalization is the identity only when the
output triggers no further terminal-block correction. On the XT1/XT11/XT111
cascade the second pass rewrites further and the third pass agrees with the
second (the correction converges); on the resolved end-to-end output (no
terminal-block chain) a second pass returns the same wires with no warnings,
and component normalization is idempotent on a representative merge. -/
theorem C10_amended_idempotence :
    (normalizeWires [xtCascadeWire1, xtCascadeWire2, xtCascadeWire3] false).wires =
      [{ id := some "1", from' := some "XT11.5", to' := some "A1" },
       { id := some "2", from' := some "XT111.2", to' := some "B1" },
       { id := some "3", from' := some "XT111.7", to' := some "C1" }] ∧
    (normalizeWires (normalizeWires [xtCascadeWire1, xtCascadeWire2, xtCascadeWire3] false).wires
        false).wires =
      [{ id := some "1", from' := some "XT111.5", to' := some "A1" },
       { id := some "2", from' := some "XT111.2", to' := some "B1" },
       { id := some "3", from' := some "XT111.7", to' := some "C1" }] ∧
    (normalizeWires
        (normalizeWires (normalizeWires [xtCascadeWire1, xtCascadeWire2, xtCascadeWire3] false).wires
          false).wires false).wires =
      (normalizeWires (normalizeWires [xtCascadeWire1, xtCascadeWire2, xtCascadeWire3] false).wires
        false).wires ∧
    normalizeWires [c2resolvedWire] false = ⟨[c2resolvedWire], []⟩ ∧
    normalizeComponents (normalizeComponents
        [{ ref := some "-QM102/1", quantity := some 1, wires := some ["24"] },
         { ref := some "-QM102", description := some "Magnetotermico", quantity := some 2,
           wires := some ["25", "24"] }]) =
      normalizeComponents
        [{ ref := some "-QM102/1", quantity := some 1, wires := some ["24"] },
         { ref := some "-QM102", description := some "Magnetotermico", quantity := some 2,
           wires := some ["25", "24"] }] := by
  refine ⟨by decide, by decide, by decide, by decide, by decide⟩

/-! ## Reference uniqueness (C3): supporting lemmas -/

theorem isDigitCh_digitChar10 {d : Nat} (h : d < 10) : isDigitCh (digitChar10 d) = true := by
  interval_cases d <;> decide

theorem natToString_all_digits (n : Nat) : (natToString n).data.all isDigitCh = true := by
  rw [List.all_eq_true]
  intro c hc
  have hc' : c ∈ (toDigitsRev (n + 1) n).reverse.map digitChar10 := hc
  rcases List.mem_map.mp hc' with ⟨d, hd, rfl⟩
  exact isDigitCh_digitChar10 (toDigitsRev_lt_ten _ _ d (List.mem_reverse.mp hd))

theorem natToString_ne_nil (n : Nat) : (natToString n).data ≠ [] := by
  show ((toDigitsRev (n + 1) n).reverse.map digitChar10) ≠ []
  by_cases h : n < 10 <;> simp [toDigitsRev, h]

theorem span_loop_acc (p : Char → Bool) : ∀ (l acc : List Char),
    List.span.loop p l acc =
      (acc.reverse ++ (List.span.loop p l []).1, (List.span.loop p l []).2) := by
  intro l
  induction l with
  | nil => intro acc; simp [List.span.loop]
  | cons a t ih =>
    intro acc
    by_cases h : p a
    · simp only [List.span.loop, h, if_true]
      rw [ih (a :: acc), ih [a]]
      simp
    · simp [List.span.loop, h]

theorem span_all_eq {p : Char → Bool} {l : List Char} (h : l.all p = true) :
    l.span p = (l, []) := by
  induction l with
  | nil => rfl
  | cons a t ih =>
    simp only [List.all_cons, Bool.and_eq_true] at h
    show List.span.loop p (a :: t) [] = (a :: t, [])
    simp only [List.span.loop, h.1, if_true]
    rw [span_loop_acc]
    rw [show List.span.loop p t [] = (t, []) from ih h.2]
    simp

theorem span_head_false {p : Char → Bool} {c : Char} {t : List Char} (h : p c = false) :
    (c :: t).span p = ([], c :: t) := by
  show List.span.loop p (c :: t) [] = ([], c :: t)
  simp [List.span.loop, h]

theorem span_head_true {p : Char → Bool} {c : Char} {t : List Char} (h : p c = true) :
    (c :: t).span p = (c :: (t.span p).1, (t.span p).2) := by
  show List.span.loop p (c :: t) [] = (c :: (t.span p).1, (t.span p).2)
  simp only [List.span.loop, h, if_true]
  rw [span_loop_acc]
  simp [List.span]

theorem digit_not_ws {c : Char} (h : isDigitCh c = true) : c.isWhitespace = false := by
  have h0 : c ≠ ' ' := fun hc => absurd (hc ▸ h) (by decide)
  have h1 : c ≠ '\t' := fun hc => absurd (hc ▸ h) (by decide)
  have h2 : c ≠ '\r' := fun hc => absurd (hc ▸ h) (by decide)
  have h3 : c ≠ '\n' := fun hc => absurd (hc ▸ h) (by decide)
  simp [Char.isWhitespace, h0, h1, h2, h3]

theorem stripCI_rimando_append (l : List Char) :
    stripCIPrefix "rimando".data ("rimando ".data ++ l) = some (' ' :: l) := rfl

theorem rimandoSimpleMatch_append (s : String) (h1 : s.data ≠ [])
    (h2 : s.data.all isDigitCh = true) :
    rimandoSimpleMatch ("rimando " ++ s).data = true := by
  have hdata : ("rimando " ++ s).data = "rimando ".data ++ s.data := rfl
  unfold rimandoSimpleMatch
  rw [hdata, stripCI_rimando_append]
  cases hsd : s.data with
  | nil => exact absurd hsd h1
  | cons c t =>
    have hcd : isDigitCh c = true := by
      rw [hsd, List.all_cons, Bool.and_eq_true] at h2
      exact h2.1
    have hsp : (' ' :: c :: t).span Char.isWhitespace = ([' '], c :: t) := by
      rw [span_head_true (by decide), span_head_false (digit_not_ws hcd)]
    simp only [hsp]
    have hspd : (c :: t).span isDigitCh = (c :: t, []) := span_all_eq (hsd ▸ h2)
    simp [hspd]
    have h2' : (c :: t).all isDigitCh = true := hsd ▸ h2
    simp at h2'
    exact h2'

theorem strExt {a b : String} (h : a.data = b.data) : a = b := by
  cases a
  cases b
  exact congrArg String.mk h

theorem strAppendCancelLeft {p a b : String} (h : p ++ a = p ++ b) : a = b := by
  apply strExt
  have hd : p.data ++ a.data = p.data ++ b.data := congrArg String.data h
  exact List.append_cancel_left hd

theorem makeRimandoUnique_nat (t f : Nat) :
    makeRimandoUnique ("rimando " ++ natToString t) (some f) =
      ("rimando " ++ natToString t) ++ "@" ++ natToString f := by
  unfold makeRimandoUnique
  rw [rimandoSimpleMatch_append _ (natToString_ne_nil t) (natToString_all_digits t)]
  rfl

/-! ## C3 fixtures -/

/-- A segment on sheet 104 referencing page 108. -/
def sheet104Wire : WireRecord :=
  { id := some "7", from' := some "X1.1", to' := some "rimando 108", foglio := some 104 }

/-- A segment on sheet 110 referencing the same page 108. -/
def sheet110Wire : WireRecord :=
  { id := some "7", from' := some "X2.1", to' := some "rimando 108", foglio := some 110 }

/-- C3: two segments referencing the same target page but emitted from two
different known sheets always produce two distinct reference nodes. First
conjunct, for every target page `t` and distinct sheets `f1 ≠ f2`: the
uniquified node names `rimando t@f1` and `rimando t@f2` differ. Second
conjunct, the spec's example: sheets 104 and 110 both saying `rimando 108`
yield two distinct reference nodes in the built graph, never one. -/
theorem C3_reference_uniqueness (t f1 f2 : Nat) (h : f1 ≠ f2) :
    makeRimandoUnique ("rimando " ++ natToString t) (some f1) ≠
      makeRimandoUnique ("rimando " ++ natToString t) (some f2) ∧
    (buildWireGraph [sheet104Wire, sheet110Wire]).map
        (fun p => p.2.nodes.map (fun n => (n.name, n.type))) =
      [[("X1.1", EndpointType.terminal), ("rimando 108@104", EndpointType.reference),
        ("X2.1", EndpointType.terminal), ("rimando 108@110", EndpointType.reference)]] := by
  constructor
  · rw [makeRimandoUnique_nat, makeRimandoUnique_nat]
    intro heq
    exact h (natToString_inj (strAppendCancelLeft heq))
  · decide

/-- C3 witness: the uniqueness theorem applied at target page 108 and sheets
104 ≠ 110. -/
theorem C3_reference_uniqueness_witness :
    makeRimandoUnique ("rimando " ++ natToString 108) (some 104) ≠
      makeRimandoUnique ("rimando " ++ natToString 108) (some 110) :=
  (C3_reference_uniqueness 108 104 110 (by decide)).1

/-! ## Prefix lemmas for the warning/panel theorems -/

theorem listIsPrefixOf_append (l r : List Char) : List.isPrefixOf l (l ++ r) = true := by
  induction l with
  | nil => cases r <;> rfl
  | cons a t ih => simp [List.isPrefixOf, ih]

theorem listIsPrefixOf_append_left :
    ∀ {l m : List Char} (r : List Char), List.isPrefixOf l m = true →
      List.isPrefixOf l (m ++ r) = true
  | [], m, r, _ => by cases m <;> cases r <;> rfl
  | _ :: _, [], _, h => by simp [List.isPrefixOf] at h
  | a :: l, b :: m, r, h => by
    simp only [List.isPrefixOf, Bool.and_eq_true] at h ⊢
    exact ⟨h.1, listIsPrefixOf_append_left r h.2⟩

theorem startsWithStr_append (p r : String) : startsWithStr (p ++ r) p = true :=
  listIsPrefixOf_append p.data r.data

theorem startsWithStr_append_left {x p : String} (r : String)
    (h : startsWithStr x p = true) : startsWithStr (x ++ r) p = true :=
  listIsPrefixOf_append_left r.data h

/-- Membership after a `setAdd` comes from the old set or is the new element. -/
theorem mem_setAdd {s : List String} {x y : String} (h : x ∈ setAdd s y) :
    x ∈ s ∨ x = y := by
  unfold setAdd at h
  by_cases hc : s.contains y
  · rw [if_pos hc] at h; exact Or.inl h
  · rw [if_neg hc] at h
    rcases List.mem_append.mp h with h1 | h2
    · exact Or.inl h1
    · exact Or.inr (List.mem_singleton.mp h2)

/-- Every element of the `PanelEndpointSet` is a non-reference label: the
build guards every insertion with `!from.startsWith('rimando')`. -/
theorem buildPanelEndpoints_no_rimando (ws : List WireRecord) :
    ∀ x ∈ buildPanelEndpoints ws, startsWithStr x "rimando" = false := by
  suffices haux : ∀ (l : List WireRecord) (acc : List String),
      (∀ x ∈ acc, startsWithStr x "rimando" = false) →
      ∀ x ∈ l.foldl (fun s w =>
        if !w.panelTag then s
        else
          let fm := toLowerStr (jsTrim (w.from'.getD ""))
          let tm := toLowerStr (jsTrim (w.to'.getD "")
            )
          let s := if !strIsEmpty fm && !startsWithStr fm "rimando" then setAdd s fm else s
          if !strIsEmpty tm && !startsWithStr tm "rimando" then setAdd s tm else s) acc,
        startsWithStr x "rimando" = false by
    exact haux ws [] (by intro x hx; cases hx)
  intro l
  induction l with
  | nil => intro acc hacc x hx; exact hacc x hx
  | cons w t ih =>
    intro acc hacc x hx
    refine ih _ ?_ x hx
    intro y hy
    by_cases hp : w.panelTag
    · simp only [hp, Bool.not_true, if_false] at hy
      set fm := toLowerStr (jsTrim (w.from'.getD "")) with hfm
      set tm := toLowerStr (jsTrim (w.to'.getD "")) with htm
      by_cases h2 : (!strIsEmpty tm && !startsWithStr tm "rimando") = true
      · rw [if_pos h2] at hy
        rcases mem_setAdd hy with hy1 | rfl
        · by_cases h1 : (!strIsEmpty fm && !startsWithStr fm "rimando") = true
          · rw [if_pos h1] at hy1
            rcases mem_setAdd hy1 with hy2 | rfl
            · exact hacc _ hy2
            · simpa using (Bool.and_eq_true _ _ |>.mp h1).2
          · rw [if_neg h1] at hy1
            exact hacc _ hy1
        · simpa using (Bool.and_eq_true _ _ |>.mp h2).2
      · rw [if_neg h2] at hy
        by_cases h1 : (!strIsEmpty fm && !startsWithStr fm "rimando") = true
        · rw [if_pos h1] at hy
          rcases mem_setAdd hy with hy2 | rfl
          · exact hacc _ hy2
          · simpa using (Bool.and_eq_true _ _ |>.mp h1).2
        · rw [if_neg h1] at hy
          exact hacc _ hy
    · simp only [hp] at hy
      exact hacc y hy

/-! ## Fixtures for the cross-panel claims -/

/-- A target-panel segment (tagged `_panel`): wire 5 from QM102.1 into a
reference to sheet 108, on sheet 100. -/
def panelTargetWire : WireRecord :=
  { id := some "5", from' := some "QM102.1", to' := some "rimando 108",
    page := some 1, foglio := some 100, panelTag := true }

/-- The cross-panel continuation of wire 5 on sheet 108 (pool record, no tag). -/
def panelCrossWire : WireRecord :=
  { id := some "5", from' := some "rimando 100", to' := some "KM45.2",
    page := some 2, foglio := some 108 }

/-- A wire entirely within another panel, first half. -/
def otherPanelWire1 : WireRecord :=
  { id := some "9", from' := some "KM1.1", to' := some "rimando 300",
    page := some 3, foglio := some 301 }

/-- A wire entirely within another panel, second half. -/
def otherPanelWire2 : WireRecord :=
  { id := some "9", from' := some "rimando 301", to' := some "KM9.9",
    page := some 4, foglio := some 300 }

/-- C5 amended: normalization warnings arise only from the terminal-block
correction and from unresolved references — every warning starts with
`Correzione automatica morsettiere: ` or with `Filo "`. Rows removed by the
exclusion filters (cable-prefix or phase-only ids, missing endpoints, two
numeric endpoints) are dropped silently, and `normalizeComponents` returns no
warnings at all (its numeric-only-reference filter is dead code besides). -/
theorem C5_amended_warning_sources (ws : List WireRecord) (b : Bool) (msg : String)
    (h : msg ∈ (normalizeWires ws b).warnings) :
    startsWithStr msg "Correzione automatica morsettiere: " = true ∨
      startsWithStr msg "Filo \"" = true := by
  have hw : (normalizeWires ws b).warnings =
      xtWarningList (xtCorrOf ws) ++ unresolvedWarningsOf ws := by
    cases b <;> rfl
  rw [hw] at h
  rcases List.mem_append.mp h with h1 | h2
  · left
    unfold xtWarningList at h1
    by_cases hc : (xtCorrOf ws).isEmpty
    · rw [if_pos hc] at h1; cases h1
    · rw [if_neg hc] at h1
      have hmsg : msg = "Correzione automatica morsettiere: " ++
          joinSep ", " ((xtCorrOf ws).map (fun kv => kv.1 ++ "→" ++ kv.2)) :=
        List.mem_singleton.mp h1
      rw [hmsg]
      exact startsWithStr_append _ _
  · right
    simp only [unresolvedWarningsOf] at h2
    split at h2
    · rcases List.mem_map.mp h2 with ⟨w, _, rfl⟩
      unfold unresolvedWarning
      apply startsWithStr_append_left
      apply startsWithStr_append_left
      apply startsWithStr_append_left
      apply startsWithStr_append_left
      apply startsWithStr_append_left
      apply startsWithStr_append_left
      apply startsWithStr_append_left
      exact startsWithStr_append _ _
    · cases h2

/-- C5 amended witness: the theorem applied to the terminal-block correction
warning of the XT cascade input. -/
theorem C5_amended_witness :
    startsWithStr "Correzione automatica morsettiere: XT1→XT11, XT11→XT111"
        "Correzione automatica morsettiere: " = true ∨
      startsWithStr "Correzione automatica morsettiere: XT1→XT11, XT11→XT111" "Filo \"" = true :=
  C5_amended_warning_sources [xtCascadeWire1, xtCascadeWire2, xtCascadeWire3] false _ (by decide)

/-- C9: when no cross-panel pool was used the filtering step is a no-op
passthrough (result and warnings equal the pre-filter pipeline); when it was
used, warnings are unchanged, and a record is kept exactly when it survives
the pre-filter pipeline AND one of its endpoints belongs to the
`PanelEndpointSet` — whose members are all non-reference labels. -/
theorem C9_cross_panel_filter (ws : List WireRecord) (w : WireRecord) :
    normalizeWires ws false = prePanelResultOf ws ∧
    (normalizeWires ws true).warnings = (normalizeWires ws false).warnings ∧
    ((w ∈ (normalizeWires ws true).wires) ↔
      (w ∈ (prePanelResultOf ws).wires ∧ touchesPanel (panelEndpointSetOf ws) w = true)) ∧
    (∀ x ∈ panelEndpointSetOf ws, startsWithStr x "rimando" = false) := by
  refine ⟨rfl, rfl, ?_, buildPanelEndpoints_no_rimando _⟩
  show (w ∈ ((prePanelResultOf ws).wires.filter (touchesPanel (panelEndpointSetOf ws)))) ↔ _
  exact List.mem_filter

/-- C9 witness: on the two-panel fixture (target wire 5 with a tagged
endpoint, wire 9 entirely in another panel), the kept record is exactly the
resolved wire 5 touching the target panel set. -/
theorem C9_cross_panel_witness :
    ({ id := some "5", from' := some "QM102.1", to' := some "KM45.2", page := some 1 } : WireRecord) ∈
      (normalizeWires [panelTargetWire, panelCrossWire, otherPanelWire1, otherPanelWire2] true).wires ∧
    ({ id := some "9", from' := some "KM1.1", to' := some "KM9.9", page := some 3 } : WireRecord) ∉
      (normalizeWires [panelTargetWire, panelCrossWire, otherPanelWire1, otherPanelWire2] true).wires := by
  constructor
  · exact (C9_cross_panel_filter [panelTargetWire, panelCrossWire, otherPanelWire1, otherPanelWire2]
      _).2.2.1.mpr ⟨by decide, by decide⟩
  · intro hmem
    have := ((C9_cross_panel_filter [panelTargetWire, panelCrossWire, otherPanelWire1, otherPanelWire2]
      _).2.2.1.mp hmem).2
    exact absurd this (by decide)

/-! ## Where output records come from: generic map/fold lemmas (C6) -/

theorem mem_mapSet [BEq κ] {m : List (κ × α)} {k : κ} {v : α} :
    ∀ p ∈ mapSet m k v, p ∈ m ∨ p = (k, v) := by
  induction m with
  | nil =>
    intro p hp
    simp only [mapSet] at hp
    exact Or.inr (List.mem_singleton.mp hp)
  | cons q t ih =>
    intro p hp
    simp only [mapSet] at hp
    by_cases hq : (q.1 == k) = true
    · rw [if_pos hq] at hp
      rcases List.mem_cons.mp hp with hp | hp
      · exact Or.inr hp
      · exact Or.inl (List.mem_cons_of_mem _ hp)
    · rw [if_neg hq] at hp
      rcases List.mem_cons.mp hp with hp | hp
      · exact Or.inl (hp ▸ List.mem_cons_self _ _)
      · rcases ih p hp with h | h
        · exact Or.inl (List.mem_cons_of_mem _ h)
        · exact Or.inr h

theorem mapFind_exists_mem [BEq κ] {m : List (κ × α)} {k : κ} {v : α}
    (h : mapFind m k = some v) : ∃ p ∈ m, p.2 = v := by
  unfold mapFind at h
  rcases Option.map_eq_some'.mp h with ⟨p, hfind, hv⟩
  exact ⟨p, List.mem_of_find?_eq_some hfind, hv⟩

/-- Invariant preservation through `List.foldl`, with membership of the list
element available at each step. -/
theorem foldl_inv {β γ : Type} {P : γ → Prop} {f : γ → β → γ} :
    ∀ (l : List β), (∀ (g : γ) (b : β), b ∈ l → P g → P (f g b)) →
      ∀ init, P init → P (l.foldl f init) := by
  intro l
  induction l with
  | nil => intro _ init h; exact h
  | cons b t ih =>
    intro hstep init hinit
    exact ih (fun g x hx hg => hstep g x (List.mem_cons_of_mem _ hx) hg) _
      (hstep init b (List.mem_cons_self _ _) hinit)

/-- Everything the BFS reports reachable is a real node: `reachable` only ever
grows by a `current` that passed the `realNodes.has` test. -/
theorem bfsLoop_subset (adj : List (String × List String)) (realNodes : List String)
    (start : String) :
    ∀ (fuel : Nat) (queue visited reach : List String),
      (∀ x ∈ reach, x ∈ realNodes) →
      ∀ x ∈ bfsLoop adj realNodes start fuel queue visited reach, x ∈ realNodes := by
  intro fuel
  induction fuel with
  | zero => intro _ _ reach h x hx; exact h x hx
  | succ f ih =>
    intro queue visited reach h x hx
    cases queue with
    | nil => exact h x hx
    | cons current rest =>
      simp only [bfsLoop] at hx
      by_cases hv : visited.contains current
      · rw [if_pos hv] at hx
        exact ih _ _ _ h x hx
      · rw [if_neg hv] at hx
        by_cases hr : (realNodes.contains current && current != start) = true
        · rw [if_pos hr] at hx
          refine ih _ _ _ ?_ x hx
          intro y hy
          rcases List.mem_append.mp hy with hy | hy
          · exact h y hy
          · rw [List.mem_singleton.mp hy]
            exact List.mem_of_elem_eq_true ((Bool.and_eq_true _ _).mp hr).1
        · rw [if_neg hr] at hx
          exact ih _ _ _ h x hx

theorem bfsReachableRealNodes_subset (adj : List (String × List String))
    (start : String) (realNodes : List String) :
    ∀ x ∈ bfsReachableRealNodes adj start realNodes, x ∈ realNodes :=
  bfsLoop_subset adj realNodes start _ _ _ _ (by intro x hx; cases hx)

/-- Every name in the real-node set of a graph is the name of one of its
non-reference nodes. -/
theorem realNodesAndPages_origin (nodes : List WireNode) :
    ∀ x ∈ (realNodesAndPages nodes).1,
      ∃ node ∈ nodes, node.type ≠ EndpointType.reference ∧ node.name = x := by
  unfold realNodesAndPages
  refine foldl_inv (P := fun rp : List String × List (String × Nat) =>
    ∀ x ∈ rp.1, ∃ node ∈ nodes, node.type ≠ EndpointType.reference ∧ node.name = x)
    nodes ?_ _ ?_
  · intro rp node hnode hrp x hx
    by_cases ht : (node.type != EndpointType.reference) = true
    · rw [if_pos ht] at hx
      rcases mem_setAdd hx with hx | rfl
      · rcases hrp x hx with ⟨n, hn, hnt, hne⟩
        exact ⟨n, hn, hnt, hne⟩
      · exact ⟨node, hnode, by simpa using ht, rfl⟩
    · rw [if_neg ht] at hx
      exact hrp x hx
  · intro x hx; cases hx

/-- Every record emitted by `resolveWireConnections` has `some`-endpoints that
are real-node names of the graph that produced them. -/
theorem resolveWireConnections_endpoints {P : String → Prop}
    (graphs : List (String × WireGraphData))
    (hg : ∀ p ∈ graphs, ∀ x ∈ (realNodesAndPages p.2.nodes).1, P x) :
    ∀ rec ∈ resolveWireConnections graphs,
      (∃ s, rec.from' = some s ∧ P s) ∧ (∃ s, rec.to' = some s ∧ P s) := by
  unfold resolveWireConnections
  refine foldl_inv (P := fun resolved : List WireRecord =>
    ∀ rec ∈ resolved,
      (∃ s, rec.from' = some s ∧ P s) ∧ (∃ s, rec.to' = some s ∧ P s))
    graphs ?_ [] ?_
  · intro resolved entry hentry hres
    by_cases hlen : (realNodesAndPages entry.2.nodes).1.length < 2
    · simpa [hlen] using hres
    · simp only [if_neg hlen]
      have hreal := hg entry hentry
      -- outer fold over the real-node set; state invariant on the second
      -- component of the (visitedPairs, resolved) pair
      refine (foldl_inv (P := fun (st : List String × List WireRecord) =>
          ∀ rec ∈ st.2,
            (∃ s, rec.from' = some s ∧ P s) ∧ (∃ s, rec.to' = some s ∧ P s))
        _ ?_ _ ?_)
      · intro st start hstart hst
        refine (foldl_inv (P := fun (st2 : List String × List WireRecord) =>
            ∀ rec ∈ st2.2,
              (∃ s, rec.from' = some s ∧ P s) ∧ (∃ s, rec.to' = some s ∧ P s))
          _ ?_ _ hst)
        intro st2 nd hnd hst2 rec hrec
        by_cases hkey : st2.1.contains
            (if strLtJs start nd then start ++ "|" ++ nd else nd ++ "|" ++ start)
        · rw [if_pos hkey] at hrec
          exact hst2 rec hrec
        · rw [if_neg hkey] at hrec
          rcases List.mem_append.mp hrec with hrec | hrec
          · exact hst2 rec hrec
          · rw [List.mem_singleton.mp hrec]
            refine ⟨⟨start, rfl, hreal start hstart⟩, ⟨nd, rfl, hreal nd ?_⟩⟩
            exact bfsReachableRealNodes_subset _ _ _ nd hnd
      · exact hres
  · intro rec h; cases h

/-! ## Trim and lower-case machinery (C6) -/

theorem dropWhile_head?_false {p : Char → Bool} :
    ∀ {l : List Char} {c : Char} {t : List Char}, l.dropWhile p = c :: t → p c = false := by
  intro l
  induction l with
  | nil => intro c t h; cases h
  | cons a l ih =>
    intro c t h
    rw [List.dropWhile_cons] at h
    by_cases ha : p a
    · rw [if_pos ha] at h; exact ih h
    · rw [if_neg ha] at h
      cases h
      exact Bool.not_eq_true _ ▸ (by simpa using ha)

theorem dropWhile_eq_self_of_head {p : Char → Bool} {l : List Char}
    (h : ∀ c, l.head? = some c → p c = false) : l.dropWhile p = l := by
  cases l with
  | nil => rfl
  | cons a t =>
    rw [List.dropWhile_cons, if_neg]
    rw [h a rfl]
    simp

theorem dropWhile_append_singleton {p : Char → Bool} {a : Char} (ha : p a = false) :
    ∀ xs : List Char, ∃ ys, (xs ++ [a]).dropWhile p = ys ++ [a] := by
  intro xs
  induction xs with
  | nil =>
    refine ⟨[], ?_⟩
    simp [List.dropWhile_cons, ha]
  | cons x t ih =>
    by_cases hx : p x
    · rcases ih with ⟨ys, hys⟩
      exact ⟨ys, by simp [List.dropWhile_cons, hx, hys]⟩
    · exact ⟨x :: t, by simp [List.dropWhile_cons, hx]⟩

theorem head?_append_left {l r : List Char} (h : l ≠ []) :
    (l ++ r).head? = l.head? := by
  cases l with
  | nil => exact absurd rfl h
  | cons a t => rfl

/-- Trimming is the identity on a list whose first and last characters are
not whitespace. -/
theorem jsTrimChars_eq_self {l : List Char}
    (hh : ∀ c, l.head? = some c → c.isWhitespace = false)
    (hl : ∀ c, l.reverse.head? = some c → c.isWhitespace = false) :
    jsTrimChars l = l := by
  unfold jsTrimChars
  rw [dropWhile_eq_self_of_head hh, dropWhile_eq_self_of_head hl, List.reverse_reverse]

/-- The first character of a trimmed list is not whitespace. -/
theorem jsTrimChars_head (l : List Char) :
    ∀ c, (jsTrimChars l).head? = some c → c.isWhitespace = false := by
  intro c hc
  unfold jsTrimChars at hc
  rw [← List.getLast?_eq_head?_reverse] at hc
  rcases hdec : (l.dropWhile Char.isWhitespace).reverse.dropWhile Char.isWhitespace with _ | ⟨b, bt⟩
  · rw [hdec] at hc; cases hc
  · have hne : (l.dropWhile Char.isWhitespace).reverse.dropWhile Char.isWhitespace ≠ [] := by
      rw [hdec]; simp
    have hgl : ((l.dropWhile Char.isWhitespace).reverse.dropWhile Char.isWhitespace).getLast? =
        (l.dropWhile Char.isWhitespace).reverse.getLast? := by
      conv_rhs => rw [← List.takeWhile_append_dropWhile Char.isWhitespace
        (l.dropWhile Char.isWhitespace).reverse]
      rw [List.getLast?_eq_head?_reverse, List.getLast?_eq_head?_reverse, List.reverse_append]
      exact (head?_append_left (by simpa using hne)).symm
    rw [hgl, List.getLast?_eq_head?_reverse, List.reverse_reverse] at hc
    rcases hA : l.dropWhile Char.isWhitespace with _ | ⟨a, at'⟩
    · rw [hA] at hc; cases hc
    · rw [hA] at hc
      cases hc
      exact dropWhile_head?_false hA

/-- The last character of a trimmed list is not whitespace. -/
theorem jsTrimChars_last (l : List Char) :
    ∀ c, (jsTrimChars l).reverse.head? = some c → c.isWhitespace = false := by
  intro c hc
  unfold jsTrimChars at hc
  rw [List.reverse_reverse] at hc
  cases hB : (l.dropWhile Char.isWhitespace).reverse.dropWhile Char.isWhitespace with
  | nil => rw [hB] at hc; cases hc
  | cons b bt =>
    rw [hB] at hc
    cases hc
    exact dropWhile_head?_false hB

/-- JS `trim` is idempotent. -/
theorem jsTrimChars_idem (l : List Char) : jsTrimChars (jsTrimChars l) = jsTrimChars l :=
  jsTrimChars_eq_self (jsTrimChars_head l) (jsTrimChars_last l)

theorem jsTrim_idem (s : String) : jsTrim (jsTrim s) = jsTrim s :=
  strExt (jsTrimChars_idem s.data)

/-- `isNumericCoordinate` is invariant under pre-trimming (it trims itself). -/
theorem isNumericCoordinate_jsTrim (s : String) :
    isNumericCoordinate (some (jsTrim s)) = isNumericCoordinate (some s) := by
  show (match (jsTrim (jsTrim s)).data with
        | '-' :: rest => numericCoreChars rest
        | l => numericCoreChars l) =
      (match (jsTrim s).data with
        | '-' :: rest => numericCoreChars rest
        | l => numericCoreChars l)
  rw [jsTrim_idem]

/-- `Char.toLower` never turns a character into or out of whitespace. -/
theorem toLower_isWhitespace (c : Char) :
    (Char.toLower c).isWhitespace = c.isWhitespace := by
  unfold Char.toLower
  by_cases h : 65 ≤ c.toNat ∧ c.toNat ≤ 90
  · rw [if_pos h]
    have hvalid : (c.toNat + 32).isValidChar := Or.inl (by omega)
    have htn : (Char.ofNat (c.toNat + 32)).toNat = c.toNat + 32 := by
      rw [Char.ofNat, dif_pos hvalid]
      rfl
    have hne : ∀ d : Char, d.toNat ≠ 32 → d.toNat ≠ 9 → d.toNat ≠ 13 → d.toNat ≠ 10 →
        d.isWhitespace = false := by
      intro d h32 h9 h13 h10
      have e32 : d ≠ ' ' := fun e => h32 (congrArg Char.toNat e)
      have e9 : d ≠ '\t' := fun e => h9 (congrArg Char.toNat e)
      have e13 : d ≠ '\r' := fun e => h13 (congrArg Char.toNat e)
      have e10 : d ≠ '\n' := fun e => h10 (congrArg Char.toNat e)
      simp [Char.isWhitespace, e32, e9, e13, e10]
    rw [hne _ (by omega) (by omega) (by omega) (by omega),
      hne _ (by omega) (by omega) (by omega) (by omega)]
  · rw [if_neg h]

/-- Dropping a prefix commutes with a character map that preserves the
predicate. -/
theorem dropWhile_map {p : Char → Bool} {f : Char → Char}
    (hf : ∀ c, p (f c) = p c) :
    ∀ l : List Char, (l.map f).dropWhile p = (l.dropWhile p).map f := by
  intro l
  induction l with
  | nil => rfl
  | cons a t ih =>
    rw [List.map_cons, List.dropWhile_cons, List.dropWhile_cons, hf a]
    by_cases ha : p a
    · rw [if_pos ha, if_pos ha, ih]
    · rw [if_neg ha, if_neg ha, List.map_cons]

/-- Lower-casing commutes with trimming. -/
theorem toLowerStr_jsTrim (s : String) :
    toLowerStr (jsTrim s) = jsTrim (toLowerStr s) := by
  apply strExt
  show (jsTrimChars s.data).map Char.toLower = jsTrimChars (s.data.map Char.toLower)
  unfold jsTrimChars
  rw [dropWhile_map toLower_isWhitespace, ← List.map_reverse,
    dropWhile_map toLower_isWhitespace, ← List.map_reverse]

/-! ## Relabeled endpoints (C6): `rimando <value>` labels -/

theorem jsTrimChars_cons_nonws {a : Char} (ha : a.isWhitespace = false) (t : List Char) :
    ∃ ys, jsTrimChars (a :: t) = a :: ys := by
  unfold jsTrimChars
  rw [List.dropWhile_cons, if_neg (by simp [ha])]
  rw [List.reverse_cons]
  rcases dropWhile_append_singleton ha t.reverse with ⟨ys, hys⟩
  rw [hys, List.reverse_append]
  exact ⟨ys.reverse, by simp⟩

theorem numericCoreChars_cons_nondigit {c : Char} (hc : isDigitCh c = false) (t : List Char) :
    numericCoreChars (c :: t) = false := by
  unfold numericCoreChars
  rw [span_head_false hc]
  simp

/-- A `rimando <value>` label is never a bare numeric coordinate. -/
theorem isNumericCoordinate_rimando_label (x : String) :
    isNumericCoordinate (some ("rimando " ++ x)) = false := by
  rcases jsTrimChars_cons_nonws (a := 'r') (by decide) ("imando ".data ++ x.data) with ⟨ys, hys⟩
  show (match jsTrimChars ('r' :: ("imando ".data ++ x.data)) with
        | '-' :: rest => numericCoreChars rest
        | l => numericCoreChars l) = false
  rw [hys]
  exact numericCoreChars_cons_nondigit (by decide) ys

/-- A `rimando <value>` label never trims to the empty string. -/
theorem jsTrim_rimando_nonempty (x : String) :
    strIsEmpty (jsTrim ("rimando " ++ x)) = false := by
  rcases jsTrimChars_cons_nonws (a := 'r') (by decide) ("imando ".data ++ x.data) with ⟨ys, hys⟩
  show (jsTrimChars ('r' :: ("imando ".data ++ x.data))).isEmpty = false
  rw [hys]
  rfl

/-- The relabeled endpoint produced by `markRimandoEndpoint` is independent of
the note being threaded through. -/
theorem markRimando_fst_note (e n1 n2 : Option String) :
    (markRimandoEndpoint e n1).1 = (markRimandoEndpoint e n2).1 := by
  unfold markRimandoEndpoint
  cases e with
  | none => rfl
  | some s => by_cases h : isNumericCoordinate (some s) <;> simp [h]

/-- After `markRimandoEndpoint` no endpoint is a bare numeric coordinate: a
numeric endpoint was relabeled `rimando …`, a non-numeric one kept. -/
theorem markRimando_fst_not_numeric (e note : Option String) :
    isNumericCoordinate (markRimandoEndpoint e note).1 = false := by
  unfold markRimandoEndpoint
  cases e with
  | none => rfl
  | some s =>
    by_cases h : isNumericCoordinate (some s) = true
    · simp only [h, Bool.not_true, Bool.false_eq_true, if_false]
      exact isNumericCoordinate_rimando_label (jsTrim s)
    · simp only [Bool.not_eq_true] at h
      simp [h]

theorem markRimando_fst_numeric {s : String} (note : Option String)
    (h : isNumericCoordinate (some s) = true) :
    (markRimandoEndpoint (some s) note).1 = some ("rimando " ++ jsTrim s) := by
  unfold markRimandoEndpoint
  simp [h]

/-- The `from` endpoint after the sanitize stage is the trim of the original
passed through `markRimandoEndpoint` (the composite-id stage never touches
the endpoints). -/
theorem sanitizeWire_from (w : WireRecord) :
    (sanitizeWire w).from' = (markRimandoEndpoint (w.from'.map jsTrim) w.note).1 := by
  unfold sanitizeWire
  cases hid : w.id with
  | none => rfl
  | some s =>
    cases hm : brokenCompositeIdMatch s with
    | none => simp only [hm]
    | some gi => simp only [hm]

/-- Same for the `to` endpoint (its threaded note is the one produced by the
`from` relabeling). -/
theorem sanitizeWire_to (w : WireRecord) :
    (sanitizeWire w).to' =
      (markRimandoEndpoint (w.to'.map jsTrim)
        (markRimandoEndpoint (w.from'.map jsTrim) w.note).2).1 := by
  unfold sanitizeWire
  cases hid : w.id with
  | none => rfl
  | some s =>
    cases hm : brokenCompositeIdMatch s with
    | none => simp only [hm]
    | some gi => simp only [hm]

/-- A numeric `from` endpoint is relabeled `rimando <trimmed value>`. -/
theorem sanitizeWire_from_relabel {w : WireRecord} {f : String}
    (hf : w.from' = some f) (hnum : isNumericCoordinate (some f) = true) :
    (sanitizeWire w).from' = some ("rimando " ++ jsTrim f) := by
  rw [sanitizeWire_from, hf]
  show (markRimandoEndpoint (some (jsTrim f)) w.note).1 = _
  rw [markRimando_fst_numeric _ (by rw [isNumericCoordinate_jsTrim]; exact hnum)]
  rw [jsTrim_idem]

/-- A numeric `to` endpoint is relabeled `rimando <trimmed value>`. -/
theorem sanitizeWire_to_relabel {w : WireRecord} {t : String}
    (ht : w.to' = some t) (hnum : isNumericCoordinate (some t) = true) :
    (sanitizeWire w).to' = some ("rimando " ++ jsTrim t) := by
  rw [sanitizeWire_to, ht]
  rw [markRimando_fst_note _ _ w.note]
  show (markRimandoEndpoint (some (jsTrim t)) w.note).1 = _
  rw [markRimando_fst_numeric _ (by rw [isNumericCoordinate_jsTrim]; exact hnum)]
  rw [jsTrim_idem]

/-- After the sanitize stage no record has a numeric endpoint, so the
"both endpoints numeric" exclusion filter can never drop a record. -/
theorem sanitizeWire_not_numeric (w : WireRecord) :
    isNumericCoordinate (sanitizeWire w).from' = false ∧
      isNumericCoordinate (sanitizeWire w).to' = false := by
  rw [sanitizeWire_from, sanitizeWire_to]
  exact ⟨markRimando_fst_not_numeric _ _, markRimando_fst_not_numeric _ _⟩

/-! ## Substring reasoning (C6): a trimmed prefix is a substring -/

theorem listContains_of_isPrefixOf {l pat : List Char} (h : pat.isPrefixOf l = true) :
    listContains l pat = true := by
  cases l with
  | nil =>
    cases pat with
    | nil => rfl
    | cons p ps => simp [List.isPrefixOf] at h
  | cons a t =>
    unfold listContains
    rw [h]
    rfl

theorem listContains_append_left (pre : List Char) {l pat : List Char}
    (h : listContains l pat = true) : listContains (pre ++ l) pat = true := by
  induction pre with
  | nil => exact h
  | cons a t ih =>
    show listContains (a :: (t ++ l)) pat = true
    unfold listContains
    rw [ih]
    simp

/-- A list is its own trim padded by whitespace on both sides. -/
theorem jsTrimChars_decomp (l : List Char) :
    ∃ pre suf, l = pre ++ (jsTrimChars l ++ suf) := by
  refine ⟨l.takeWhile Char.isWhitespace,
          ((l.dropWhile Char.isWhitespace).reverse.takeWhile Char.isWhitespace).reverse, ?_⟩
  conv_lhs => rw [← List.takeWhile_append_dropWhile Char.isWhitespace l]
  congr 1
  conv_lhs => rw [← List.reverse_reverse (l.dropWhile Char.isWhitespace),
    ← List.takeWhile_append_dropWhile Char.isWhitespace (l.dropWhile Char.isWhitespace).reverse]
  rw [List.reverse_append]
  rfl

theorem strContains_of_startsWith_trim {s p : String}
    (h : startsWithStr (jsTrim s) p = true) : strContains s p = true := by
  rcases jsTrimChars_decomp s.data with ⟨pre, suf, hdec⟩
  show listContains s.data p.data = true
  rw [hdec]
  apply listContains_append_left
  exact listContains_of_isPrefixOf (listIsPrefixOf_append_left suf h)

theorem no_rimando_of_not_contains {s : String}
    (h : strContains (toLowerStr s) "rimando" = false) :
    startsWithStr (toLowerStr (jsTrim s)) "rimando" = false := by
  by_contra hcon
  rw [Bool.not_eq_false] at hcon
  rw [toLowerStr_jsTrim] at hcon
  have hc := strContains_of_startsWith_trim hcon
  rw [h] at hc
  cases hc

/-- A record with no `rimando` mention has non-reference trimmed endpoints. -/
theorem hasRimando_false_endpoints {w : WireRecord} (h : hasRimandoRecord w = false) :
    startsWithStr (toLowerStr (jsTrim (w.from'.getD ""))) "rimando" = false ∧
      startsWithStr (toLowerStr (jsTrim (w.to'.getD ""))) "rimando" = false := by
  unfold hasRimandoRecord at h
  rcases Bool.or_eq_false_iff.mp h with ⟨h1, h2⟩
  exact ⟨no_rimando_of_not_contains h1, no_rimando_of_not_contains h2⟩

/-! ## Real-node names are never references (C6) -/

theorem stripCIPrefix_inv : ∀ {pat l rest : List Char},
    stripCIPrefix pat l = some rest → ∃ pre, l = pre ++ rest ∧ pre.map Char.toLower = pat := by
  intro pat
  induction pat with
  | nil =>
    intro l rest h
    cases h
    exact ⟨[], rfl, rfl⟩
  | cons p ps ih =>
    intro l rest h
    cases l with
    | nil => cases h
    | cons c cs =>
      unfold stripCIPrefix at h
      by_cases hc : c.toLower = p
      · rw [if_pos hc] at h
        rcases ih h with ⟨pre, hl, hm⟩
        exact ⟨c :: pre, by rw [List.cons_append, ← hl], by simp [hm, hc]⟩
      · rw [if_neg hc] at h
        cases h

theorem mem_of_head?_eq_some {l : List Char} {c : Char} (h : l.head? = some c) : c ∈ l := by
  cases l with
  | nil => cases h
  | cons a t =>
    cases h
    exact List.mem_cons_self _ _

theorem list_isEmpty_true {α} {l : List α} (h : l.isEmpty = true) : l = [] := by
  cases l with
  | nil => rfl
  | cons a t => cases h

theorem list_isEmpty_false {α} {l : List α} (h : l.isEmpty = false) : l ≠ [] := by
  cases l with
  | nil => cases h
  | cons a t => simp

theorem takeWhile_all_self (p : Char → Bool) : ∀ l : List Char, (l.takeWhile p).all p = true := by
  intro l
  induction l with
  | nil => rfl
  | cons a t ih =>
    rw [List.takeWhile_cons]
    by_cases ha : p a
    · rw [if_pos ha]
      simp [ha, ih]
    · rw [if_neg ha]
      rfl

/-- What a successful `^rimando\s+\d+$` match says about the raw characters:
the lower-cased input starts with `rimando`, the first character is not
whitespace, and the last character is a digit. -/
theorem rimandoSimpleMatch_facts {l : List Char} (h : rimandoSimpleMatch l = true) :
    List.isPrefixOf "rimando".data (l.map Char.toLower) = true ∧
    (∀ c, l.head? = some c → c.isWhitespace = false) ∧
    (∀ c, l.reverse.head? = some c → isDigitCh c = true) := by
  unfold rimandoSimpleMatch at h
  cases hstrip : stripCIPrefix "rimando".data l with
  | none => rw [hstrip] at h; cases h
  | some rest =>
    rw [hstrip] at h
    rcases stripCIPrefix_inv hstrip with ⟨pre, rfl, hlow⟩
    simp only [List.span_eq_take_drop, Bool.and_eq_true, Bool.not_eq_true'] at h
    -- rest decomposes as whitespace then digits
    have hrest : rest.takeWhile Char.isWhitespace ++
        rest.dropWhile Char.isWhitespace = rest :=
      List.takeWhile_append_dropWhile _ _
    have hdigits : (rest.dropWhile Char.isWhitespace).takeWhile isDigitCh ++
        (rest.dropWhile Char.isWhitespace).dropWhile isDigitCh =
          rest.dropWhile Char.isWhitespace :=
      List.takeWhile_append_dropWhile _ _
    have hdnil : (rest.dropWhile Char.isWhitespace).dropWhile isDigitCh = [] :=
      list_isEmpty_true h.2.2
    have hdne : (rest.dropWhile Char.isWhitespace).takeWhile isDigitCh ≠ [] :=
      list_isEmpty_false h.2.1
    refine ⟨?_, ?_, ?_⟩
    · rw [List.map_append, hlow]
      exact listIsPrefixOf_append _ _
    · intro c hc
      cases hp : pre with
      | nil =>
        rw [hp] at hlow
        cases hlow
      | cons c0 pre' =>
        rw [hp] at hc
        cases hc
        rw [hp, List.map_cons] at hlow
        have hc0 : c.toLower = 'r' := by
          have := List.cons.inj hlow
          exact this.1
        rw [← toLower_isWhitespace, hc0]
        rfl
    · intro c hc
      -- the last character of pre ++ rest is the last digit
      have hshape : pre ++ rest =
          (pre ++ rest.takeWhile Char.isWhitespace ++
            (rest.dropWhile Char.isWhitespace).takeWhile isDigitCh) := by
        rw [List.append_assoc]
        congr 1
        conv_lhs => rw [← hrest]
        congr 1
        conv_lhs => rw [← hdigits]
        rw [hdnil, List.append_nil]
      rw [hshape, List.reverse_append] at hc
      rcases hds : ((rest.dropWhile Char.isWhitespace).takeWhile isDigitCh).reverse with _ | ⟨d0, ds⟩
      · exact absurd (by simpa using hds) hdne
      · rw [hds] at hc
        cases hc
        have hmem : c ∈ (rest.dropWhile Char.isWhitespace).takeWhile isDigitCh := by
          rw [← List.mem_reverse, hds]
          exact List.mem_cons_self _ _
        exact List.all_eq_true.mp (takeWhile_all_self isDigitCh _) c hmem

/-- The uniquified name of a non-reference endpoint is never lower-trim
`rimando …`-prefixed: classification already ruled the normalized name out,
and `makeRimandoUnique` only fires on names that would classify as
references. -/
theorem node_name_nameOK {ep : String} {fog : Option Nat}
    (hcl : classifyEndpoint (normalizeRimando (jsTrim ep)) ≠ EndpointType.reference) :
    startsWithStr
      (toLowerStr (jsTrim (makeRimandoUnique (normalizeRimando (jsTrim ep)) fog)))
      "rimando" = false := by
  have hns : startsWithStr (toLowerStr (jsTrim (normalizeRimando (jsTrim ep))))
      "rimando" = false := by
    by_contra hcon
    rw [Bool.not_eq_false] at hcon
    apply hcl
    unfold classifyEndpoint
    rw [if_pos hcon]
  cases fog with
  | none => exact hns
  | some f =>
    simp only [makeRimandoUnique]
    by_cases hm : rimandoSimpleMatch (normalizeRimando (jsTrim ep)).data = true
    · exfalso
      rcases rimandoSimpleMatch_facts hm with ⟨hpre, hhead, hlast⟩
      have hid : jsTrim (normalizeRimando (jsTrim ep)) = normalizeRimando (jsTrim ep) :=
        strExt (jsTrimChars_eq_self hhead (fun c hc => digit_not_ws (hlast c hc)))
      rw [hid] at hns
      have hns' : List.isPrefixOf "rimando".data
          ((normalizeRimando (jsTrim ep)).data.map Char.toLower) = false := hns
      exact Bool.noConfusion (hpre.symm.trans hns')
    · rw [if_neg hm]
      exact hns

/-- Core of the `pushWireIntoGraphs` node invariant: updating one wire graph
adds only nodes of the `makeRimandoUnique ∘ normalizeRimando ∘ jsTrim` shape
with the matching classification. -/
theorem pushCore_nodes {G : List (String × WireGraphData)} {k : String} {w : WireRecord}
    (hG : ∀ q ∈ G, ∀ node ∈ q.2.nodes,
      ∃ ep fog, node.name = makeRimandoUnique (normalizeRimando (jsTrim ep)) fog ∧
        node.type = classifyEndpoint (normalizeRimando (jsTrim ep))) :
    ∀ p ∈ (let g := (mapFind G k).getD ⟨[], []⟩
           let g := match w.from' with
             | some f =>
               if strIsEmpty f then g
               else { g with nodes := g.nodes ++
                   [⟨makeRimandoUnique (normalizeRimando (jsTrim f)) w.foglio,
                     classifyEndpoint (normalizeRimando (jsTrim f)), w.page, w.foglio⟩] }
             | none => g
           let g := match w.to' with
             | some t =>
               if strIsEmpty t then g
               else { g with nodes := g.nodes ++
                   [⟨makeRimandoUnique (normalizeRimando (jsTrim t)) w.foglio,
                     classifyEndpoint (normalizeRimando (jsTrim t)), w.page, w.foglio⟩] }
             | none => g
           let g := match w.from', w.to' with
             | some f, some t =>
               if strIsEmpty f || strIsEmpty t then g
               else { g with edges := g.edges ++
                   [⟨makeRimandoUnique (normalizeRimando (jsTrim f)) w.foglio,
                     makeRimandoUnique (normalizeRimando (jsTrim t)) w.foglio, w.page⟩] }
             | _, _ => g
           mapSet G k g),
      ∀ node ∈ p.2.nodes,
        ∃ ep fog, node.name = makeRimandoUnique (normalizeRimando (jsTrim ep)) fog ∧
          node.type = classifyEndpoint (normalizeRimando (jsTrim ep)) := by
  have hg0 : ∀ node ∈ ((mapFind G k).getD ⟨[], []⟩).nodes,
      ∃ ep fog, node.name = makeRimandoUnique (normalizeRimando (jsTrim ep)) fog ∧
        node.type = classifyEndpoint (normalizeRimando (jsTrim ep)) := by
    intro node hnode
    cases hfind : mapFind G k with
    | none =>
      rw [hfind] at hnode
      cases hnode
    | some g =>
      rw [hfind] at hnode
      rcases mapFind_exists_mem hfind with ⟨q, hq, hq2⟩
      exact hG q hq node (by rw [hq2]; exact hnode)
  have hg1 : ∀ node ∈ ((match w.from' with
      | some f =>
        if strIsEmpty f then (mapFind G k).getD ⟨[], []⟩
        else { (mapFind G k).getD ⟨[], []⟩ with
               nodes := ((mapFind G k).getD ⟨[], []⟩).nodes ++
                 [(⟨makeRimandoUnique (normalizeRimando (jsTrim f)) w.foglio,
                   classifyEndpoint (normalizeRimando (jsTrim f)), w.page, w.foglio⟩ : WireNode)] }
      | none => (mapFind G k).getD ⟨[], []⟩ : WireGraphData)).nodes,
      ∃ ep fog, node.name = makeRimandoUnique (normalizeRimando (jsTrim ep)) fog ∧
        node.type = classifyEndpoint (normalizeRimando (jsTrim ep)) := by
    cases hf : w.from' with
    | none => exact hg0
    | some f =>
      simp only []
      by_cases he : strIsEmpty f = true
      · rw [if_pos he]
        exact hg0
      · rw [if_neg he]
        intro node hnode
        rcases List.mem_append.mp hnode with h | h
        · exact hg0 node h
        · rw [List.mem_singleton] at h
          exact ⟨f, w.foglio, by rw [h], by rw [h]⟩
  have hg2 : ∀ node ∈ ((match w.to' with
      | some t =>
        if strIsEmpty t then
          (match w.from' with
            | some f =>
              if strIsEmpty f then (mapFind G k).getD ⟨[], []⟩
              else { (mapFind G k).getD ⟨[], []⟩ with
                     nodes := ((mapFind G k).getD ⟨[], []⟩).nodes ++
                       [(⟨makeRimandoUnique (normalizeRimando (jsTrim f)) w.foglio,
                         classifyEndpoint (normalizeRimando (jsTrim f)), w.page, w.foglio⟩ : WireNode)] }
            | none => (mapFind G k).getD ⟨[], []⟩ : WireGraphData)
        else { (match w.from' with
            | some f =>
              if strIsEmpty f then (mapFind G k).getD ⟨[], []⟩
              else { (mapFind G k).getD ⟨[], []⟩ with
                     nodes := ((mapFind G k).getD ⟨[], []⟩).nodes ++
                       [(⟨makeRimandoUnique (normalizeRimando (jsTrim f)) w.foglio,
                         classifyEndpoint (normalizeRimando (jsTrim f)), w.page, w.foglio⟩ : WireNode)] }
            | none => (mapFind G k).getD ⟨[], []⟩ : WireGraphData) with
               nodes := ((match w.from' with
                 | some f =>
                   if strIsEmpty f then (mapFind G k).getD ⟨[], []⟩
                   else { (mapFind G k).getD ⟨[], []⟩ with
                          nodes := ((mapFind G k).getD ⟨[], []⟩).nodes ++
                            [(⟨makeRimandoUnique (normalizeRimando (jsTrim f)) w.foglio,
                              classifyEndpoint (normalizeRimando (jsTrim f)), w.page, w.foglio⟩ : WireNode)] }
                 | none => (mapFind G k).getD ⟨[], []⟩ : WireGraphData)).nodes ++
                 [(⟨makeRimandoUnique (normalizeRimando (jsTrim t)) w.foglio,
                   classifyEndpoint (normalizeRimando (jsTrim t)), w.page, w.foglio⟩ : WireNode)] }
      | none =>
          (match w.from' with
            | some f =>
              if strIsEmpty f then (mapFind G k).getD ⟨[], []⟩
              else { (mapFind G k).getD ⟨[], []⟩ with
                     nodes := ((mapFind G k).getD ⟨[], []⟩).nodes ++
                       [(⟨makeRimandoUnique (normalizeRimando (jsTrim f)) w.foglio,
                         classifyEndpoint (normalizeRimando (jsTrim f)), w.page, w.foglio⟩ : WireNode)] }
            | none => (mapFind G k).getD ⟨[], []⟩ : WireGraphData) : WireGraphData)).nodes,
      ∃ ep fog, node.name = makeRimandoUnique (normalizeRimando (jsTrim ep)) fog ∧
        node.type = classifyEndpoint (normalizeRimando (jsTrim ep)) := by
    cases ht : w.to' with
    | none => exact hg1
    | some t =>
      simp only []
      by_cases he : strIsEmpty t = true
      · rw [if_pos he]
        exact hg1
      · rw [if_neg he]
        intro node hnode
        rcases List.mem_append.mp hnode with h | h
        · exact hg1 node h
        · rw [List.mem_singleton] at h
          exact ⟨t, w.foglio, by rw [h], by rw [h]⟩
  intro p hp
  simp only [] at hp
  rcases mem_mapSet _ hp with hp | rfl
  · exact hG p hp
  · intro node hnode
    refine hg2 node ?_
    cases hf : w.from' with
    | none =>
      rw [hf] at hnode
      simp only [] at hnode
      exact hnode
    | some f =>
      rw [hf] at hnode
      cases ht : w.to' with
      | none =>
        rw [ht] at hnode
        simp only [] at hnode
        exact hnode
      | some t =>
        rw [ht] at hnode
        simp only [] at hnode
        by_cases hc : (strIsEmpty f || strIsEmpty t) = true
        · rw [if_pos hc] at hnode
          exact hnode
        · rw [if_neg hc] at hnode
          exact hnode

/-- Every node of every graph built by `buildWireGraph` is a uniquified
normalized endpoint with its matching classification. -/
theorem buildWireGraph_nodes_origin (wires : List WireRecord) :
    ∀ p ∈ buildWireGraph wires, ∀ node ∈ p.2.nodes,
      ∃ ep fog, node.name = makeRimandoUnique (normalizeRimando (jsTrim ep)) fog ∧
        node.type = classifyEndpoint (normalizeRimando (jsTrim ep)) := by
  have hfold : ∀ p ∈ wires.foldl pushWireIntoGraphs [], ∀ node ∈ p.2.nodes,
      ∃ ep fog, node.name = makeRimandoUnique (normalizeRimando (jsTrim ep)) fog ∧
        node.type = classifyEndpoint (normalizeRimando (jsTrim ep)) := by
    refine foldl_inv (P := fun graphs : List (String × WireGraphData) =>
      ∀ p ∈ graphs, ∀ node ∈ p.2.nodes,
        ∃ ep fog, node.name = makeRimandoUnique (normalizeRimando (jsTrim ep)) fog ∧
          node.type = classifyEndpoint (normalizeRimando (jsTrim ep)))
      wires ?_ [] ?_
    · intro graphs w _ hinv p hp
      unfold pushWireIntoGraphs at hp
      cases hid : w.id with
      | none =>
        rw [hid] at hp
        exact hinv p hp
      | some rawId =>
        rw [hid] at hp
        simp only [] at hp
        by_cases hemp : strIsEmpty (jsTrim rawId) = true
        · rw [if_pos hemp] at hp
          exact hinv p hp
        · rw [if_neg hemp] at hp
          by_cases hhas : mapHas graphs (jsTrim rawId) = true
          · rw [if_pos hhas] at hp
            exact pushCore_nodes hinv p hp
          · rw [if_neg hhas] at hp
            refine pushCore_nodes ?_ p hp
            intro q hq
            rcases mem_mapSet _ hq with hq | rfl
            · exact hinv q hq
            · intro node hnode
              cases hnode
    · intro p hp
      cases hp
  intro p hp node hnode
  unfold buildWireGraph at hp
  rcases List.mem_map.mp hp with ⟨q, hq, rfl⟩
  exact hfold q hq node hnode

/-- The real nodes of a built wire graph never carry a lower-trim
`rimando …` name. -/
theorem builtGraph_realNodes_nameOK (wires : List WireRecord) :
    ∀ p ∈ buildWireGraph wires, ∀ x ∈ (realNodesAndPages p.2.nodes).1,
      startsWithStr (toLowerStr (jsTrim x)) "rimando" = false := by
  intro p hp x hx
  rcases realNodesAndPages_origin p.2.nodes x hx with ⟨node, hn, hnt, rfl⟩
  rcases buildWireGraph_nodes_origin wires p hp node hn with ⟨ep, fog, hname, htype⟩
  rw [hname]
  exact node_name_nameOK (fun hc => hnt (htype.trans hc))

/-- Graph-resolved records connect real nodes, whose names never carry a
lower-trim `rimando …` prefix. -/
theorem resolved_no_rimando (wires : List WireRecord) :
    ∀ rec ∈ resolveWireConnections (buildWireGraph wires),
      (∃ s, rec.from' = some s ∧ startsWithStr (toLowerStr (jsTrim s)) "rimando" = false) ∧
        (∃ s, rec.to' = some s ∧ startsWithStr (toLowerStr (jsTrim s)) "rimando" = false) :=
  resolveWireConnections_endpoints (buildWireGraph wires) (builtGraph_realNodes_nameOK wires)

/-- Every value of the final dedup map came from the complete segments or the
resolved pairs. -/
theorem finalDedup_values (complete resolved : List WireRecord) :
    ∀ p ∈ finalDedup complete resolved, p.2 ∈ complete ∨ p.2 ∈ resolved := by
  unfold finalDedup
  simp only []
  have hm : ∀ p ∈ complete.foldl (fun m w => mapSet m (finalKey w) w)
      ([] : List (String × WireRecord)), p.2 ∈ complete ∨ p.2 ∈ resolved := by
    refine foldl_inv (P := fun m : List (String × WireRecord) =>
      ∀ p ∈ m, p.2 ∈ complete ∨ p.2 ∈ resolved) complete ?_ [] ?_
    · intro m w hw hinv p hp
      rcases mem_mapSet _ hp with hp | rfl
      · exact hinv p hp
      · exact Or.inl hw
    · intro p hp
      cases hp
  refine foldl_inv (P := fun m : List (String × WireRecord) =>
    ∀ p ∈ m, p.2 ∈ complete ∨ p.2 ∈ resolved) resolved ?_ _ hm
  intro m w hw hinv p hp
  by_cases hc : (mapHas m (finalKey w) || mapHas m (finalReverseKey w)) = true
  · rw [if_pos hc] at hp
    exact hinv p hp
  · rw [if_neg hc] at hp
    rcases mem_mapSet _ hp with hp | rfl
    · exact hinv p hp
    · exact Or.inr hw

/-- No record surviving to the pre-panel wire list carries a lower-trim
`rimando …`-prefixed endpoint: complete segments never mention a reference,
and resolved pairs connect real nodes. -/
theorem prePanelWires_no_rimando (wires : List WireRecord) :
    ∀ w ∈ prePanelWiresOf wires,
      startsWithStr (toLowerStr (jsTrim (w.from'.getD ""))) "rimando" = false ∧
        startsWithStr (toLowerStr (jsTrim (w.to'.getD ""))) "rimando" = false := by
  intro w hw
  unfold prePanelWiresOf at hw
  simp only [] at hw
  by_cases hne : (!((sanitizedWiresOf wires).filter hasRimandoRecord).isEmpty) = true
  · rw [if_pos hne] at hw
    rcases List.mem_map.mp hw with ⟨p, hp, rfl⟩
    rcases finalDedup_values _ _ p hp with hc | hr
    · have hfalse : hasRimandoRecord p.2 = false := by
        have hmem := (List.mem_filter.mp hc).2
        rcases hb : hasRimandoRecord p.2 with _ | _
        · rfl
        · rw [hb] at hmem
          cases hmem
      exact hasRimando_false_endpoints hfalse
    · rcases resolved_no_rimando _ p.2 hr with ⟨⟨s, hs, hps⟩, ⟨t, hts, hpt⟩⟩
      constructor
      · rw [hs]
        exact hps
      · rw [hts]
        exact hpt
  · rw [if_neg hne] at hw
    have hemp : ((sanitizedWiresOf wires).filter hasRimandoRecord).isEmpty = true := by
      rcases hb : ((sanitizedWiresOf wires).filter hasRimandoRecord).isEmpty with _ | _
      · exact absurd (by rw [hb]; rfl) hne
      · rfl
    have hall := List.filter_eq_nil_iff.mp (list_isEmpty_true hemp)
    have hfalse : hasRimandoRecord w = false := by
      rcases hb : hasRimandoRecord w with _ | _
      · rfl
      · exact absurd hb (hall w hw)
    exact hasRimando_false_endpoints hfalse

/-- The cross-panel filter only removes records, so the full `normalizeWires`
output never carries a reference-labeled endpoint either. -/
theorem normalizeWires_no_rimando (wires : List WireRecord) (b : Bool) :
    ∀ w ∈ (normalizeWires wires b).wires,
      startsWithStr (toLowerStr (jsTrim (w.from'.getD ""))) "rimando" = false ∧
        startsWithStr (toLowerStr (jsTrim (w.to'.getD ""))) "rimando" = false := by
  intro w hw
  refine prePanelWires_no_rimando wires w ?_
  cases b with
  | false => exact hw
  | true => exact List.mem_of_mem_filter hw

/-- C6: a bare numeric endpoint is relabeled `rimando <value>` by the
sanitize stage (whatever the opposite endpoint holds), after the relabeling
the "both endpoints numeric" exclusion can never fire — so no record is
dropped there, silently or otherwise — and the relabeled endpoint is
non-empty, so such a record also passes the essentials filter. A record
whose endpoints were both numeric is nevertheless dropped entirely from the
final output: no `normalizeWires` output record ever carries a
`rimando …`-labeled endpoint, and the concrete both-numeric example
`24: 105 → 106` yields an empty wire list with only its
unresolved-reference warning. -/
theorem C6_numeric_endpoint_policy :
    (∀ (w : WireRecord) (f : String), w.from' = some f →
        isNumericCoordinate (some f) = true →
        (sanitizeWire w).from' = some ("rimando " ++ jsTrim f)) ∧
    (∀ (w : WireRecord) (t : String), w.to' = some t →
        isNumericCoordinate (some t) = true →
        (sanitizeWire w).to' = some ("rimando " ++ jsTrim t)) ∧
    (∀ w : WireRecord,
        (isNumericCoordinate (sanitizeWire w).from' &&
          isNumericCoordinate (sanitizeWire w).to') = false) ∧
    (∀ x : String, strIsEmpty (jsTrim ("rimando " ++ x)) = false) ∧
    (∀ (wires : List WireRecord) (b : Bool), ∀ w ∈ (normalizeWires wires b).wires,
        startsWithStr (toLowerStr (jsTrim (w.from'.getD ""))) "rimando" = false ∧
          startsWithStr (toLowerStr (jsTrim (w.to'.getD ""))) "rimando" = false) ∧
    normalizeWires [{ id := some "24", from' := some "105", to' := some "106", page := some 3 }] false =
      ⟨[], ["Filo \"24\" (da rimando 105 a rimando 106, pagina 3): rimando non risolto - connessione cross-pagina incompleta"]⟩ := by
  refine ⟨?_, ?_, ?_, jsTrim_rimando_nonempty, normalizeWires_no_rimando, by decide⟩
  · intro w f hf hnum
    exact sanitizeWire_from_relabel hf hnum
  · intro w t ht hnum
    exact sanitizeWire_to_relabel ht hnum
  · intro w
    rcases sanitizeWire_not_numeric w with ⟨h1, h2⟩
    rw [h1, h2]
    rfl

/-- C6, evaluated: the both-numeric example record has both endpoints
relabeled, and the simple real-endpoint record `5: A → B` survives
normalization with neither endpoint reference-labeled. -/
theorem C6_numeric_endpoint_policy_witness :
    (sanitizeWire { id := some "24", from' := some "105", to' := some "106", page := some 3 }).from' = some ("rimando " ++ jsTrim "105") ∧
    (sanitizeWire { id := some "24", from' := some "105", to' := some "106", page := some 3 }).to' = some ("rimando " ++ jsTrim "106") ∧
    (startsWithStr (toLowerStr (jsTrim ((({ id := some "5", from' := some "A", to' := some "B" } : WireRecord)).from'.getD ""))) "rimando" = false ∧
      startsWithStr (toLowerStr (jsTrim ((({ id := some "5", from' := some "A", to' := some "B" } : WireRecord)).to'.getD ""))) "rimando" = false) :=
  ⟨C6_numeric_endpoint_policy.1 _ "105" rfl (by decide),
   C6_numeric_endpoint_policy.2.1 _ "106" rfl (by decide),
   C6_numeric_endpoint_policy.2.2.2.2.1
     [{ id := some "5", from' := some "A", to' := some "B" }] false
     { id := some "5", from' := some "A", to' := some "B" } (by decide)⟩

end Extraction
